import Mathlib

/-!
# Chocobun `Level`: a shallow embedding of `core/Level.cpp`

The C++ class `Chocobun::Level` is embedded as a record of its data members and
one Lean function per member function, in explicit state-passing style.

* `Uint32` values are natural numbers; every arithmetic operation the source
  performs on them is followed by `% UINT32_MOD`.
* `char` values are `Char`; the two places that do arithmetic on a `char`
  (`direction -= 32`, `move += 32`) reduce modulo 256.
* `std::vector` is `List`; `operator[]` outside the bounds of a vector is
  undefined behaviour in C++ and is reported as `Outcome.undefined` / `none`.
* A thrown exception is reported together with the state of the object at the
  moment of the throw.
-/

namespace Chocobun

/-! ## Machine integers and characters -/

/-- The modulus of `Chocobun::Uint32` arithmetic. -/
def UINT32_MOD : Nat := 4294967296

/-- The value `-1` converted to `Uint32` (the "no undo data" sentinel). -/
def UINT32_MINUS_ONE : Nat := 4294967295

/-- Unsigned 32-bit `++v`. -/
def inc32 (v : Nat) : Nat := (v + 1) % UINT32_MOD

/-- Unsigned 32-bit `--v`. -/
def dec32 (v : Nat) : Nat := (v + UINT32_MINUS_ONE) % UINT32_MOD

/-- Unsigned 32-bit `a + (a - b)`, as in `newX + (newX-m_PlayerX)`. -/
def step32 (a b : Nat) : Nat := (a + (a + UINT32_MOD - b % UINT32_MOD)) % UINT32_MOD

/-- The statement `c -= 32` on a `char`. -/
def charSub32 (c : Char) : Char := Char.ofNat ((c.toNat + 224) % 256)

/-- The statement `c += 32` on a `char`. -/
def charAdd32 (c : Char) : Char := Char.ofNat ((c.toNat + 32) % 256)

/-! ## Vectors -/

/-- The call `v.resize(n, c)` of `std::vector<char>`. -/
def resize (v : List Char) (n : Nat) (c : Char) : List Char :=
  v.take n ++ List.replicate (n - v.length) c

/-- The read `a[x][y]`; `none` when either index is out of bounds. -/
def at2 (a : List (List Char)) (x y : Nat) : Option Char :=
  match a[x]? with
  | none => none
  | some col => col[y]?

/-- The write `a[x][y] = c`; `none` when either index is out of bounds. -/
def set2 (a : List (List Char)) (x y : Nat) (c : Char) : Option (List (List Char)) :=
  match a[x]? with
  | none => none
  | some col => if y < col.length then some (a.set x (col.set y c)) else none

/-- The call `s.find_first_of(c)` of `std::string`; `none` stands for `npos`. -/
def find_first_of : List Char → Char → Option Nat
  | [], _ => none
  | d :: ds, c => if d = c then some 0 else (find_first_of ds c).map (· + 1)

/-! ## The map of meta data (`std::map<std::string, std::string>`) -/

/-- The call `m.find(key)`; `none` stands for `m.end()`. -/
def mapFind : List (String × String) → String → Option String
  | [], _ => none
  | (k, v) :: rest, key => if k = key then some v else mapFind rest key

/-- The statement `m[key] = value`. -/
def mapAssign : List (String × String) → String → String → List (String × String)
  | [], key, value => [(key, value)]
  | (k, v) :: rest, key, value =>
    if k = key then (k, value) :: rest else (k, v) :: mapAssign rest key value

/-! ## The class `Level` -/

/-- The data members of `Chocobun::Level`. -/
structure Level where
  m_MetaData : List (String × String)
  m_LevelArray : List (List Char)
  m_HeaderData : List String
  m_Notes : List String
  m_UndoData : List Char
  m_LevelName : String
  m_PlayerX : Nat
  m_PlayerY : Nat
  m_UndoDataIndex : Nat
  m_IsLevelValid : Bool
deriving DecidableEq, Repr

/-- What the code throws: `Chocobun::Exception` with one of three messages, or the
`std::out_of_range` of `std::vector::at`. -/
inductive Thrown where
  /-- "[Level::insertTile] attempt to insert invalid character into level array" -/
  | invalidTile
  /-- "[Level::addMetaData] meta data already exists" -/
  | duplicateMetaDataKey
  /-- "[Level::getMetaData] meta data not found" -/
  | metaDataKeyNotFound
  /-- The exception of `m_UndoData.at( i )` for `i >= m_UndoData.size()` -/
  | outOfRange
deriving DecidableEq, Repr

/-- How a call of a `void` member function ends. -/
inductive Outcome where
  /-- normal return, with the state of the level afterwards -/
  | done (l : Level)
  /-- an exception leaves the function, with the state of the level at the throw -/
  | threw (e : Thrown) (l : Level)
  /-- an out-of-bounds `operator[]` or a `pop_back` on an empty vector -/
  | undefined
deriving DecidableEq, Repr

/-- The level a call leaves behind, when it leaves one. -/
def Outcome.state? : Outcome → Option Level
  | .done l => some l
  | .threw _ l => some l
  | .undefined => none

/-- The constant `Level::validTiles`. -/
def validTiles : List Char :=
  ['#', '@', '+', '$', '*', '.', ' ', '_', 'p', 'P', 'b', 'B']

/-- The constructor `Level::Level`. It initialises neither `m_PlayerX` nor
`m_PlayerY`; their indeterminate values are the parameters `px` and `py`. -/
def Level.new (px py : Nat) : Level :=
  { m_MetaData := []
    m_LevelArray := [[]]
    m_HeaderData := []
    m_Notes := []
    m_UndoData := []
    m_LevelName := ""
    m_PlayerX := px
    m_PlayerY := py
    m_UndoDataIndex := UINT32_MINUS_ONE
    m_IsLevelValid := false }

/-- Member function `Level::addMetaData`. -/
def addMetaData (l : Level) (key value : String) : Outcome :=
  if mapFind l.m_MetaData key ≠ none then
    .threw .duplicateMetaDataKey l
  else
    .done { l with m_MetaData := mapAssign l.m_MetaData key value }

/-- Member function `Level::getMetaData`. -/
def getMetaData (l : Level) (key : String) : Except Thrown String :=
  match mapFind l.m_MetaData key with
  | none => .error .metaDataKeyNotFound
  | some v => .ok v

/-- The loop `while( x+1 > m_LevelArray.size() )` of `Level::insertTile`; `x1` is
the value of `x+1`. Every iteration makes the array one column longer, so
`x1 - a.length` iterations are enough; `fuel` counts them. -/
def growColumns (x1 : Nat) : Nat → List (List Char) → List (List Char)
  | 0, a => a
  | fuel + 1, a =>
    if x1 > a.length then
      let pushed := a ++ [[]]
      growColumns x1 fuel
        (pushed.set (pushed.length - 1)
          (resize (pushed.getD (pushed.length - 1) []) (pushed.getD 0 []).length ' '))
    else a

/-- Member function `Level::insertTile`. -/
def insertTile (l : Level) (x y : Nat) (tile : Char) : Outcome :=
  if find_first_of validTiles tile = none then
    .threw .invalidTile l
  else
    let x1 := (x + 1) % UINT32_MOD
    let y1 := (y + 1) % UINT32_MOD
    let a1 := growColumns x1 (x1 - l.m_LevelArray.length) l.m_LevelArray
    match a1 with
    | [] => .undefined
    | col0 :: _ =>
      let a2 := if y1 > col0.length then a1.map (fun col => resize col y1 ' ') else a1
      match set2 a2 x y tile with
      | none => .undefined
      | some a3 => .done { l with m_LevelArray := a3 }

/-- The loop of `Level::insertTileLine`, from the loop variable `x` on;
`fuel` is the number of iterations left, `tiles.size() - x`. -/
def insertTileLineLoop (y : Nat) (tiles : List Char) : Nat → Nat → Level → Outcome
  | 0, _, l => .done l
  | fuel + 1, x, l =>
    match tiles[x]? with
    | none => .undefined
    | some c =>
      match insertTile l (x % UINT32_MOD) y c with
      | .done l1 => insertTileLineLoop y tiles fuel (x + 1) l1
      | other => other

/-- Member function `Level::insertTileLine`. -/
def insertTileLine (l : Level) (y : Nat) (tiles : String) : Outcome :=
  insertTileLineLoop y tiles.data tiles.data.length 0 l

/-- Member function `Level::getTile`; `none` is an out-of-bounds read. -/
def getTile (l : Level) (x y : Nat) : Option Char :=
  if x < 1 ∨ x > l.m_LevelArray.length then some (Char.ofNat 0)
  else
    match l.m_LevelArray with
    | [] => none
    | col0 :: _ =>
      if y < 1 ∨ y > col0.length then some (Char.ofNat 0)
      else at2 l.m_LevelArray (x - 1) (y - 1)

/-- Member function `Level::getSizeX`. -/
def getSizeX (l : Level) : Nat := l.m_LevelArray.length % UINT32_MOD

/-- Member function `Level::getSizeY`; `none` is the read of `m_LevelArray[0]` in
an empty array. -/
def getSizeY (l : Level) : Option Nat :=
  match l.m_LevelArray with
  | [] => none
  | col0 :: _ => some (col0.length % UINT32_MOD)

/-- The statement pattern `if( a[x][y] == c ) a[x][y] = v; else a[x][y] = w;`,
with `f` the function from the tile read to the tile written. -/
def modify2 (a : List (List Char)) (x y : Nat) (f : Char → Char) :
    Option (List (List Char)) :=
  match at2 a x y with
  | none => none
  | some t => set2 a x y (f t)

/-- How the two nested loops of `Level::validateLevel` are left. -/
inductive Scan where
  /-- by the statement `return false`, with the level as it is then -/
  | returnedFalse (l : Level)
  /-- by running to the end, with the value of `playerFound` -/
  | finished (playerFound : Bool) (l : Level)
deriving DecidableEq, Repr

/-- The inner loop `for( size_t y = 0; y != m_LevelArray[0].size(); ++y )` of
`Level::validateLevel` in column `x`, over the values of `y` still to visit. -/
def validateColumn (x : Nat) : List Nat → Bool → Level → Option Scan
  | [], playerFound, l => some (.finished playerFound l)
  | y :: ys, playerFound, l =>
    match at2 l.m_LevelArray x y with
    | none => none
    | some t =>
      if t = '@' then
        if playerFound then some (.returnedFalse l)
        else validateColumn x ys true
          { l with m_PlayerX := x % UINT32_MOD, m_PlayerY := y % UINT32_MOD }
      else validateColumn x ys playerFound l

/-- The outer loop `for( size_t x = 0; x != m_LevelArray.size(); ++x )` of
`Level::validateLevel`, over the values of `x` still to visit. -/
def validateColumns : List Nat → Bool → Level → Option Scan
  | [], playerFound, l => some (.finished playerFound l)
  | x :: xs, playerFound, l =>
    match l.m_LevelArray with
    | [] => none
    | col0 :: _ =>
      match validateColumn x (List.range col0.length) playerFound l with
      | none => none
      | some (.returnedFalse l1) => some (.returnedFalse l1)
      | some (.finished found1 l1) => validateColumns xs found1 l1

/-- Member function `Level::validateLevel`: the value returned and the level
afterwards; `none` is an out-of-bounds read. -/
def validateLevel (l : Level) : Option (Bool × Level) :=
  if l.m_IsLevelValid then some (true, l)
  else
    match validateColumns (List.range l.m_LevelArray.length) false l with
    | none => none
    | some (.returnedFalse l1) => some (false, l1)
    | some (.finished _ l1) => some (true, { l1 with m_IsLevelValid := true })

/-- The loop `while( m_UndoData.size() != m_UndoDataIndex ) m_UndoData.pop_back();`
of `Level::movePlayer`. Every iteration makes the log one record shorter, so
`fuel` starts at the length of the log; when it is used up the log is empty, and
a further `pop_back` is undefined. -/
def truncateLoop (index : Nat) : Nat → List Char → Option (List Char)
  | 0, log => if log.length ≠ index then none else some log
  | fuel + 1, log =>
    if log.length ≠ index then truncateLoop index fuel log.dropLast else some log

/-- The second half of `Level::movePlayer`, from the comment "move box up (if
any)" to `return true`. -/
def movePlayerCommit (l : Level) (direction : Char) (isPushingBox : Bool)
    (newX newY nextX nextY : Nat) : Option (Bool × Level) := do
  let a1 ← if isPushingBox then
      (modify2 l.m_LevelArray newX newY (fun t => if t = '$' then ' ' else '.')).bind
        (fun a => modify2 a nextX nextY (fun t => if t = '.' then '*' else '$'))
    else some l.m_LevelArray
  let a2 ← modify2 a1 newX newY (fun t => if t = ' ' then '@' else '+')
  let a3 ← modify2 a2 l.m_PlayerX l.m_PlayerY (fun t => if t = '@' then ' ' else '+')
  let direction1 := if isPushingBox then charSub32 direction else direction
  let log ← if l.m_UndoDataIndex ≠ UINT32_MINUS_ONE then
      truncateLoop l.m_UndoDataIndex l.m_UndoData.length l.m_UndoData
    else some l.m_UndoData
  some (true, { l with
    m_LevelArray := a3
    m_UndoData := log ++ [direction1]
    m_UndoDataIndex := inc32 l.m_UndoDataIndex })

/-- Member function `Level::movePlayer`: the value returned and the level
afterwards; `none` is undefined behaviour. -/
def movePlayer (l : Level) (direction : Char) : Option (Bool × Level) :=
  let newY := if direction = 'u' then dec32 l.m_PlayerY else l.m_PlayerY
  let newY := if direction = 'd' then inc32 newY else newY
  let newX := if direction = 'l' then dec32 l.m_PlayerX else l.m_PlayerX
  let newX := if direction = 'r' then inc32 newX else newX
  let nextX := step32 newX l.m_PlayerX
  let nextY := step32 newY l.m_PlayerY
  match at2 l.m_LevelArray newX newY with
  | none => none
  | some t =>
    if t = '#' then some (false, l)
    else if t = '$' ∨ t = '*' then
      match at2 l.m_LevelArray nextX nextY with
      | none => none
      | some n =>
        if n = '#' ∨ n = '$' ∨ n = '*' then some (false, l)
        else movePlayerCommit l direction true newX newY nextX nextY
    else movePlayerCommit l direction false newX newY nextX nextY

/-- Member function `Level::moveUp`. -/
def moveUp (l : Level) : Outcome :=
  if !l.m_IsLevelValid then .done l
  else
    match movePlayer l 'u' with
    | none => .undefined
    | some (false, l1) => .done l1
    | some (true, l1) => .done { l1 with m_PlayerY := dec32 l1.m_PlayerY }

/-- Member function `Level::moveDown`. -/
def moveDown (l : Level) : Outcome :=
  if !l.m_IsLevelValid then .done l
  else
    match movePlayer l 'd' with
    | none => .undefined
    | some (false, l1) => .done l1
    | some (true, l1) => .done { l1 with m_PlayerY := inc32 l1.m_PlayerY }

/-- Member function `Level::moveLeft`. -/
def moveLeft (l : Level) : Outcome :=
  if !l.m_IsLevelValid then .done l
  else
    match movePlayer l 'l' with
    | none => .undefined
    | some (false, l1) => .done l1
    | some (true, l1) => .done { l1 with m_PlayerX := dec32 l1.m_PlayerX }

/-- Member function `Level::moveRight`. -/
def moveRight (l : Level) : Outcome :=
  if !l.m_IsLevelValid then .done l
  else
    match movePlayer l 'r' with
    | none => .undefined
    | some (false, l1) => .done l1
    | some (true, l1) => .done { l1 with m_PlayerX := inc32 l1.m_PlayerX }

/-- The tile writes of `Level::undo`, from the comment "revert back player
position" to the end. -/
def undoTiles (l : Level) (boxPushed : Bool) (oldX oldY previousX previousY : Nat) :
    Option (List (List Char)) := do
  let a1 ← modify2 l.m_LevelArray l.m_PlayerX l.m_PlayerY
    (fun t => if t = '@' then ' ' else '+')
  let a2 ← modify2 a1 oldX oldY (fun t => if t = ' ' then '@' else '+')
  if boxPushed then
    (modify2 a2 previousX previousY (fun t => if t = '$' then ' ' else '.')).bind
      (fun a => modify2 a oldX oldY (fun t => if t = ' ' then '$' else '*'))
  else some a2

/-- Member function `Level::undo`. -/
def undo (l : Level) : Outcome :=
  if !l.m_IsLevelValid then .done l
  else if l.m_UndoDataIndex = UINT32_MINUS_ONE then .done l
  else
    match l.m_UndoData[l.m_UndoDataIndex]? with
    | none => .threw .outOfRange l
    | some move0 =>
      let boxPushed : Bool := move0 = 'U' ∨ move0 = 'D' ∨ move0 = 'L' ∨ move0 = 'R'
      let move := if boxPushed then charAdd32 move0 else move0
      let oldY := if move = 'u' then inc32 l.m_PlayerY else l.m_PlayerY
      let oldY := if move = 'd' then dec32 oldY else oldY
      let oldX := if move = 'l' then inc32 l.m_PlayerX else l.m_PlayerX
      let oldX := if move = 'r' then dec32 oldX else oldX
      let previousX := step32 oldX l.m_PlayerX
      let previousY := step32 oldY l.m_PlayerY
      match undoTiles l boxPushed oldX oldY previousX previousY with
      | none => .undefined
      | some a =>
        .done { l with m_LevelArray := a, m_UndoDataIndex := dec32 l.m_UndoDataIndex }

/-- Member function `Level::redo`. The comparison
`m_UndoDataIndex == m_UndoData.size()-1` is made in `size_t`, whose modulus
`SIZE_T_MOD` (2^32 or 2^64) is a parameter. -/
def redo (SIZE_T_MOD : Nat) (l : Level) : Outcome :=
  if !l.m_IsLevelValid then .done l
  else if l.m_UndoDataIndex = (l.m_UndoData.length + SIZE_T_MOD - 1) % SIZE_T_MOD then .done l
  else
    match l.m_UndoData[l.m_UndoDataIndex]? with
    | none => .threw .outOfRange l
    | some direction =>
      match movePlayer l direction with
      | none => .undefined
      | some (_, l1) => .done { l1 with m_UndoDataIndex := inc32 l1.m_UndoDataIndex }

/-! ## Vocabulary of the statements -/

/-- The eight tile symbols that the documentation of `Level::insertTile` lists. -/
def documentedTiles : List Char := ['#', '@', '+', '$', '*', '.', ' ', '_']

/-- The grid `a` has `W` columns, each of height `H`. -/
def IsGrid (a : List (List Char)) (W H : Nat) : Prop :=
  a.length = W ∧ ∀ col ∈ a, col.length = H

/-- The tile at `[i][j]`, floor where the grid has no such cell. -/
def cellD (a : List (List Char)) (i j : Nat) : Char := (at2 a i j).getD ' '

/-- A well-formed level: the array has at least one column (the constructor
pushes one), all columns are as long as column 0, both extents fit a `Uint32`,
and every cell holds a character of `validTiles`. -/
def GridOK (l : Level) : Prop :=
  0 < l.m_LevelArray.length ∧
  l.m_LevelArray.length < UINT32_MOD ∧
  (l.m_LevelArray.headD []).length < UINT32_MOD ∧
  (∀ col ∈ l.m_LevelArray, col.length = (l.m_LevelArray.headD []).length) ∧
  (∀ col ∈ l.m_LevelArray, ∀ t ∈ col, t ∈ validTiles)

instance (l : Level) : Decidable (GridOK l) := by
  unfold GridOK
  infer_instance

/-- The levels that calls of `insertTile` and `insertTileLine`, returning or
throwing, produce from a freshly constructed level. The arguments are `Uint32`
values. -/
inductive Reachable : Level → Prop where
  | fresh (px py : Nat) : Reachable (Level.new px py)
  | tile {l l1 : Level} (x y : Nat) (tile : Char) :
      Reachable l → x < UINT32_MOD → y < UINT32_MOD →
      (insertTile l x y tile).state? = some l1 → Reachable l1
  | line {l l1 : Level} (y : Nat) (tiles : String) :
      Reachable l → y < UINT32_MOD →
      (insertTileLine l y tiles).state? = some l1 → Reachable l1

/-- A sequence of `insertTile` calls `(x, y, tile)`, made in order as long as each
returns normally. -/
def insertAll : Level → List (Nat × Nat × Char) → Outcome
  | l, [] => .done l
  | l, (x, y, tile) :: rest =>
    match insertTile l x y tile with
    | .done l1 => insertAll l1 rest
    | other => other

/-- The largest `x` of a sequence of calls. -/
def maxX : List (Nat × Nat × Char) → Nat
  | [] => 0
  | (x, _, _) :: rest => max x (maxX rest)

/-- The largest `y` of a sequence of calls. -/
def maxY : List (Nat × Nat × Char) → Nat
  | [] => 0
  | (_, y, _) :: rest => max y (maxY rest)

/-- The grid `a1` extends the grid `a` apart from the cells `written`: every
other cell of `a` is a cell of `a1` with the same tile, and every other cell of
`a1` that `a` does not have holds floor. -/
def Extends (a a1 : List (List Char)) (written : Nat → Nat → Prop) : Prop :=
  (∀ i j ch, at2 a i j = some ch → ¬ written i j → at2 a1 i j = some ch) ∧
  (∀ i j ch, at2 a i j = none → at2 a1 i j = some ch → ¬ written i j → ch = ' ')

/-- The calls `insertTile(i, y, c)` for the pairs `(i, c)` of a list, made in
order as long as each returns normally. -/
def insertEach (y : Nat) : List (Nat × Char) → Level → Outcome
  | [], l => .done l
  | (i, c) :: rest, l =>
    match insertTile l i y c with
    | .done l1 => insertEach y rest l1
    | other => other

/-- A sequence of `addMetaData` calls `(key, value)` made in order, going on after
a call that throws. -/
def addAll : Level → List (String × String) → Option Level
  | l, [] => some l
  | l, (key, value) :: rest =>
    match (addMetaData l key value).state? with
    | some l1 => addAll l1 rest
    | none => none

/-- The levels that later calls of `insertTile`, `insertTileLine` and
`validateLevel` produce from the level `l`. -/
inductive Later (l : Level) : Level → Prop where
  | refl : Later l l
  | tile {l1 l2 : Level} (x y : Nat) (tile : Char) :
      Later l l1 → (insertTile l1 x y tile).state? = some l2 → Later l l2
  | line {l1 l2 : Level} (y : Nat) (tiles : String) :
      Later l l1 → (insertTileLine l1 y tiles).state? = some l2 → Later l l2
  | validate {l1 l2 : Level} (b : Bool) :
      Later l l1 → validateLevel l1 = some (b, l2) → Later l l2

/-- The four directions of a move. -/
inductive Direction where
  | up
  | down
  | left
  | right
deriving DecidableEq, Repr

/-- The letter that the move function of a direction passes to `movePlayer`. -/
def Direction.letter : Direction → Char
  | .up => 'u'
  | .down => 'd'
  | .left => 'l'
  | .right => 'r'

/-- The member functions `moveUp`, `moveDown`, `moveLeft` and `moveRight`, by
direction. -/
def move : Direction → Level → Outcome
  | .up => moveUp
  | .down => moveDown
  | .left => moveLeft
  | .right => moveRight

/-- The 0-based cell `k` steps from `(x, y)` in a direction (up is towards row
0, left towards column 0); `none` when a coordinate would be negative. -/
def Direction.cell : Direction → Nat → Nat → Nat → Option (Nat × Nat)
  | .up, x, y, k => if k ≤ y then some (x, y - k) else none
  | .down, x, y, k => some (x, y + k)
  | .left, x, y, k => if k ≤ x then some (x - k, y) else none
  | .right, x, y, k => some (x + k, y)

/-- The tile `k` steps from the cached player position in a direction: `k = 1`
is the cell next to the player (target), `k = 2` the cell beyond it; `none`
when the grid has no such cell. -/
def tileAhead (l : Level) (d : Direction) (k : Nat) : Option Char :=
  match d.cell l.m_PlayerX l.m_PlayerY k with
  | none => none
  | some (x, y) => at2 l.m_LevelArray x y

/-- The value of `newX` in `movePlayer` for the letter of a direction. -/
def Direction.newX (d : Direction) (l : Level) : Nat :=
  match d with
  | .left => dec32 l.m_PlayerX
  | .right => inc32 l.m_PlayerX
  | _ => l.m_PlayerX

/-- The value of `newY` in `movePlayer` for the letter of a direction. -/
def Direction.newY (d : Direction) (l : Level) : Nat :=
  match d with
  | .up => dec32 l.m_PlayerY
  | .down => inc32 l.m_PlayerY
  | _ => l.m_PlayerY

/-- A validated level with the given grid (a list of columns), player
coordinates, move log and cursor, the other members as the constructor leaves
them. -/
def Level.play (a : List (List Char)) (px py : Nat) (log : List Char) (index : Nat) : Level :=
  { Level.new px py with
    m_LevelArray := a
    m_UndoData := log
    m_UndoDataIndex := index
    m_IsLevelValid := true }

/-- The truncation loop of `movePlayer` ends without a `pop_back` on an empty
log: the cursor is the sentinel, or it is at most the length of the log. -/
def LogOK (l : Level) : Prop :=
  l.m_UndoDataIndex = UINT32_MINUS_ONE ∨ l.m_UndoDataIndex ≤ l.m_UndoData.length

instance (l : Level) : Decidable (LogOK l) := by
  unfold LogOK
  infer_instance

/-- A box-bearing tile: `$` or `*`. -/
def isBox (t : Char) : Bool := t = '$' || t = '*'

/-- The number of box-bearing cells of a grid. -/
def boxCount (a : List (List Char)) : Nat :=
  (a.map (fun col => col.countP isBox)).sum

/-- Whether the grid has the cell `[i][j]` and it is box-bearing. -/
def isBoxAt (a : List (List Char)) (i j : Nat) : Bool :=
  match at2 a i j with
  | none => false
  | some t => isBox t

/-- A sequence of moves, made in order as long as each returns normally. -/
def runMoves : Level → List Direction → Outcome
  | l, [] => .done l
  | l, d :: ds =>
    match move d l with
    | .done l1 => runMoves l1 ds
    | other => other

/-- Every cell of the first and the last column and of the first and the last row
holds a wall. -/
def WallBorder (a : List (List Char)) : Prop :=
  ∀ i < a.length, ∀ j < (a.headD []).length,
    (i = 0 ∨ i + 1 = a.length ∨ j = 0 ∨ j + 1 = (a.headD []).length) →
    at2 a i j = some '#'

instance (a : List (List Char)) : Decidable (WallBorder a) := by
  unfold WallBorder
  infer_instance

/-- The grid holds `@` at `[px][py]` and in no other cell. -/
def OnePlayerAt (a : List (List Char)) (px py : Nat) : Prop :=
  at2 a px py = some '@' ∧
  ∀ i < a.length, ∀ j < (a.headD []).length, at2 a i j = some '@' → i = px ∧ j = py

instance (a : List (List Char)) (px py : Nat) : Decidable (OnePlayerAt a px py) := by
  unfold OnePlayerAt
  infer_instance

/-- The state of play on a walled level: the level is well formed and validated,
its log lets the truncation loop end, the border of the grid is wall, and the
cell at the cached player coordinates holds a player tile. -/
def PlayInv (l : Level) : Prop :=
  GridOK l ∧ l.m_IsLevelValid = true ∧ LogOK l ∧ WallBorder l.m_LevelArray ∧
  (at2 l.m_LevelArray l.m_PlayerX l.m_PlayerY = some '@' ∨
   at2 l.m_LevelArray l.m_PlayerX l.m_PlayerY = some '+')

/-! ## Theorems -/

/-! ### The grid after `insertTile` -/

theorem at2_eq_none_of_width {a : List (List Char)} {i : Nat} (j : Nat)
    (h : a.length ≤ i) : at2 a i j = none := by
  simp [at2, List.getElem?_eq_none h]

theorem IsGrid.at2_some {a : List (List Char)} {W H i j : Nat} (hg : IsGrid a W H)
    (hi : i < W) (hj : j < H) : at2 a i j = some (cellD a i j) := by
  obtain ⟨hW, hH⟩ := hg
  have hi2 : i < a.length := by omega
  have hcol : (a[i]).length = H := hH _ (List.getElem_mem hi2)
  have hj2 : j < (a[i]).length := by omega
  simp [cellD, at2, List.getElem?_eq_getElem hi2, List.getElem?_eq_getElem hj2]

theorem IsGrid.at2_none {a : List (List Char)} {W H i j : Nat} (hg : IsGrid a W H)
    (h : ¬ (i < W ∧ j < H)) : at2 a i j = none := by
  obtain ⟨hW, hH⟩ := hg
  by_cases hi : i < a.length
  · have hcol : (a[i]).length = H := hH _ (List.getElem_mem hi)
    have hj : (a[i]).length ≤ j := by omega
    simp [at2, List.getElem?_eq_getElem hi, List.getElem?_eq_none hj]
  · exact at2_eq_none_of_width j (by omega)

theorem IsGrid.at2_eq {a : List (List Char)} {W H : Nat} (hg : IsGrid a W H) (i j : Nat) :
    at2 a i j = if i < W ∧ j < H then some (cellD a i j) else none := by
  split
  · next h => exact hg.at2_some h.1 h.2
  · next h => exact hg.at2_none h

theorem resize_getElem? (v : List Char) (n j : Nat) (c : Char) :
    (resize v n c)[j]? = if j < n then some (v[j]?.getD c) else none := by
  unfold resize
  rw [List.getElem?_append, List.getElem?_take, List.getElem?_replicate]
  simp only [List.length_take]
  by_cases hjn : j < n
  · by_cases hjv : j < v.length
    · simp [hjn, hjv, List.getElem?_eq_getElem hjv]
    · have : v.length ≤ j := by omega
      simp [hjn, hjv, List.getElem?_eq_none this]
      omega
  · have h1 : ¬ (j < min n v.length) := by omega
    have h2 : ¬ (j - min n v.length < n - v.length) := by omega
    simp [hjn, h1, h2]

theorem resize_length (v : List Char) (n : Nat) (c : Char) : (resize v n c).length = n := by
  unfold resize
  simp only [List.length_append, List.length_take, List.length_replicate]
  omega

theorem growColumns_eq (x1 : Nat) (n : Nat) (col0 : List Char) (rest : List (List Char)) :
    growColumns x1 n (col0 :: rest) =
      (col0 :: rest) ++ List.replicate (min n (x1 - (rest.length + 1)))
        (List.replicate col0.length ' ') := by
  induction n generalizing rest with
  | zero => simp [growColumns]
  | succ n ih =>
    unfold growColumns
    by_cases h : x1 > (col0 :: rest).length
    · have hset : ((col0 :: rest) ++ [[]]).set (((col0 :: rest) ++ [[]]).length - 1)
          (resize (((col0 :: rest) ++ [[]]).getD (((col0 :: rest) ++ [[]]).length - 1) [])
            (((col0 :: rest) ++ [[]]).getD 0 []).length ' ')
          = col0 :: (rest ++ [List.replicate col0.length ' ']) := by
        have e1 : ((col0 :: rest) ++ [[]]).length - 1 = (col0 :: rest).length := by simp
        rw [e1, List.set_append_right _ _ (le_refl _)]
        simp [resize]
      simp only [h, if_true]
      rw [hset, ih]
      simp only [List.length_cons, List.length_append, List.length_nil] at h ⊢
      have e2 : min (n + 1) (x1 - (rest.length + 1)) = min n (x1 - (rest.length + 1 + 1)) + 1 := by
        omega
      rw [e2, List.replicate_succ]
      simp
    · simp only [h, if_false]
      simp only [List.length_cons] at h
      have : min (n + 1) (x1 - (rest.length + 1)) = 0 := by omega
      simp [this]

theorem IsGrid.grow {a : List (List Char)} {W H : Nat} (hg : IsGrid a W H) (hW : 0 < W)
    (x1 : Nat) :
    IsGrid (growColumns x1 (x1 - a.length) a) (max W x1) H ∧
    ∀ i j, cellD (growColumns x1 (x1 - a.length) a) i j = cellD a i j := by
  obtain ⟨hlen, hcols⟩ := hg
  cases a with
  | nil => simp at hlen; omega
  | cons col0 rest =>
    have h0 : col0.length = H := hcols col0 (List.mem_cons_self _ _)
    rw [growColumns_eq]
    simp only [List.length_cons] at hlen ⊢
    have hmin : min (x1 - (rest.length + 1)) (x1 - (rest.length + 1)) = x1 - W := by
      rw [Nat.min_self, hlen]
    rw [hmin, h0]
    refine ⟨⟨?_, ?_⟩, ?_⟩
    · simp only [List.length_append, List.length_cons, List.length_replicate]; omega
    · intro col hcol
      rcases List.mem_append.mp hcol with h | h
      · exact hcols col h
      · rw [List.eq_of_mem_replicate h]; simp
    · intro i j
      unfold cellD at2
      rw [List.getElem?_append, List.getElem?_replicate]
      by_cases hi : i < (col0 :: rest).length
      · simp only [hi, if_true]
      · have hn : (col0 :: rest)[i]? = none := List.getElem?_eq_none (by omega)
        simp only [hi, if_false, hn]
        by_cases hk : i - (col0 :: rest).length < x1 - W
        · simp only [hk, if_true, List.getElem?_replicate]
          split <;> rfl
        · simp only [hk, if_false]

theorem IsGrid.resizeAll {a : List (List Char)} {W H : Nat} (hg : IsGrid a W H) (n : Nat) :
    IsGrid (a.map (fun col => resize col n ' ')) W n ∧
    ∀ i j, j < n → cellD (a.map (fun col => resize col n ' ')) i j = cellD a i j := by
  obtain ⟨hlen, hcols⟩ := hg
  refine ⟨⟨by simpa using hlen, ?_⟩, ?_⟩
  · intro col hcol
    obtain ⟨c0, _, rfl⟩ := List.mem_map.mp hcol
    exact resize_length c0 n ' '
  · intro i j hj
    unfold cellD at2
    rw [List.getElem?_map]
    cases h : a[i]? with
    | none => rfl
    | some col =>
      simp only [Option.map_some', resize_getElem?, hj, if_true]
      cases col[j]? <;> rfl

theorem IsGrid.set2 {a : List (List Char)} {W H x y : Nat} (hg : IsGrid a W H)
    (hx : x < W) (hy : y < H) (c : Char) :
    ∃ a3, set2 a x y c = some a3 ∧ IsGrid a3 W H ∧
      ∀ i j, at2 a3 i j = if i = x ∧ j = y then some c else at2 a i j := by
  obtain ⟨hlen, hcols⟩ := hg
  have hx2 : x < a.length := by omega
  have hcol : (a[x]).length = H := hcols _ (List.getElem_mem hx2)
  refine ⟨a.set x ((a[x]).set y c), ?_, ⟨?_, ?_⟩, ?_⟩
  · simp [Chocobun.set2, List.getElem?_eq_getElem hx2, hcol, hy]
  · simpa using hlen
  · intro col hmem
    rcases List.mem_or_eq_of_mem_set hmem with h | h
    · exact hcols col h
    · rw [h, List.length_set, hcol]
  · intro i j
    unfold at2
    rw [List.getElem?_set]
    by_cases hxi : x = i
    · subst hxi
      simp only [if_true, hx2, true_and, List.getElem?_set, List.getElem?_eq_getElem hx2]
      by_cases hyj : y = j
      · subst hyj; simp [hcol, hy]
      · have : ¬ j = y := fun h => hyj h.symm
        simp [hyj, this]
    · have : ¬ i = x := fun h => hxi h.symm
      simp [hxi, this]

/-- What a call of `insertTile` with a valid tile does to a `W` by `H` grid. -/
theorem insertTile_grid (l : Level) {W H x y : Nat} {tile : Char}
    (hg : IsGrid l.m_LevelArray W H) (hW : 0 < W)
    (hx : x + 1 < UINT32_MOD) (hy : y + 1 < UINT32_MOD)
    (ht : find_first_of validTiles tile ≠ none) :
    ∃ a3, insertTile l x y tile = .done { l with m_LevelArray := a3 } ∧
      IsGrid a3 (max W (x + 1)) (max H (y + 1)) ∧
      ∀ i j, at2 a3 i j =
        if i = x ∧ j = y then some tile
        else if i < max W (x + 1) ∧ j < max H (y + 1) then some (cellD l.m_LevelArray i j)
        else none := by
  have hx1 : (x + 1) % UINT32_MOD = x + 1 := Nat.mod_eq_of_lt hx
  have hy1 : (y + 1) % UINT32_MOD = y + 1 := Nat.mod_eq_of_lt hy
  obtain ⟨hg1, hc1⟩ := hg.grow hW (x + 1)
  unfold insertTile
  simp only [ht, if_false, hx1, hy1]
  generalize growColumns (x + 1) (x + 1 - l.m_LevelArray.length) l.m_LevelArray = a1 at hg1 hc1
  cases a1 with
  | nil => have := hg1.1; simp at this; omega
  | cons col0 rest =>
    have h0 : col0.length = H := hg1.2 col0 (List.mem_cons_self _ _)
    simp only [h0]
    have key : ∀ a2 : List (List Char), IsGrid a2 (max W (x + 1)) (max H (y + 1)) →
        (∀ i j, j < max H (y + 1) → cellD a2 i j = cellD l.m_LevelArray i j) →
        ∃ a3, (match Chocobun.set2 a2 x y tile with
            | none => Outcome.undefined
            | some a3 => Outcome.done { l with m_LevelArray := a3 })
              = .done { l with m_LevelArray := a3 } ∧
          IsGrid a3 (max W (x + 1)) (max H (y + 1)) ∧
          ∀ i j, at2 a3 i j =
            if i = x ∧ j = y then some tile
            else if i < max W (x + 1) ∧ j < max H (y + 1) then some (cellD l.m_LevelArray i j)
            else none := by
      intro a2 hg2 hc2
      obtain ⟨a3, hs, hg3, hat⟩ := hg2.set2 (x := x) (y := y) (by omega) (by omega) tile
      refine ⟨a3, by rw [hs], hg3, ?_⟩
      intro i j
      rw [hat i j, hg2.at2_eq i j]
      by_cases hij : i = x ∧ j = y
      · simp only [hij, and_self, if_true]
      · simp only [hij, if_false]
        by_cases hin : i < max W (x + 1) ∧ j < max H (y + 1)
        · simp only [hin, and_self, if_true, hc2 i j hin.2]
        · simp only [hin, if_false]
    by_cases hgt : y + 1 > H
    · simp only [hgt, if_true]
      have hmax : max H (y + 1) = y + 1 := by omega
      obtain ⟨hg2, hc2⟩ := hg1.resizeAll (y + 1)
      rw [hmax] at key
      rw [hmax]
      exact key _ hg2 (fun i j hj => by rw [hc2 i j hj, hc1])
    · simp only [hgt, if_false]
      have hmax : max H (y + 1) = H := by omega
      rw [hmax] at key
      rw [hmax]
      exact key _ hg1 (fun i j _ => hc1 i j)

/-! ### `insertTile`: the invalid-tile exception (C1, C2) -/

theorem find_first_of_eq_none (s : List Char) (c : Char) :
    find_first_of s c = none ↔ c ∉ s := by
  induction s with
  | nil => simp [find_first_of]
  | cons d ds ih =>
    unfold find_first_of
    by_cases h : d = c
    · simp [h]
    · have h2 : ¬ c = d := fun e => h e.symm
      simp [h, h2, ih]

theorem GridOK.isGrid {l : Level} (h : GridOK l) :
    IsGrid l.m_LevelArray l.m_LevelArray.length (l.m_LevelArray.headD []).length :=
  ⟨rfl, h.2.2.2.1⟩

/-- C1, as amended: for every level and all coordinates, `insertTile` throws its
invalid-tile exception if and only if the symbol is none of the twelve characters
of `validTiles` (the eight documented tiles and `p`, `P`, `b`, `B`); and on a
well-formed level, with both coordinates below 2^32-1, the call returns normally
for each of those twelve. -/
theorem insertTile_invalidTile_iff (l : Level) (x y : Nat) (symbol : Char) :
    ((∃ l1, insertTile l x y symbol = .threw .invalidTile l1) ↔
      symbol ∉ ['#', '@', '+', '$', '*', '.', ' ', '_', 'p', 'P', 'b', 'B']) ∧
    (GridOK l → x < UINT32_MINUS_ONE → y < UINT32_MINUS_ONE →
      symbol ∈ ['#', '@', '+', '$', '*', '.', ' ', '_', 'p', 'P', 'b', 'B'] →
      ∃ l1, insertTile l x y symbol = .done l1) := by
  have hv := find_first_of_eq_none validTiles symbol
  refine ⟨⟨?_, ?_⟩, ?_⟩
  · rintro ⟨l1, h⟩ hmem
    have hne : find_first_of validTiles symbol ≠ none := fun e => (hv.mp e) hmem
    unfold insertTile at h
    simp only [hne, if_false] at h
    split at h
    · cases h
    · split at h <;> cases h
  · intro hnot
    refine ⟨l, ?_⟩
    unfold insertTile
    rw [if_pos (hv.mpr hnot)]
  · intro hl hx hy hmem
    have hne : find_first_of validTiles symbol ≠ none := fun e => (hv.mp e) hmem
    obtain ⟨a3, h, _⟩ := insertTile_grid l hl.isGrid hl.1
      (show x + 1 < UINT32_MOD by unfold UINT32_MOD; unfold UINT32_MINUS_ONE at hx; omega)
      (show y + 1 < UINT32_MOD by unfold UINT32_MOD; unfold UINT32_MINUS_ONE at hy; omega) hne
    exact ⟨_, h⟩

/-- C1, witness: the tile `B` at `(2, 1)` of a fresh level. -/
theorem insertTile_invalidTile_iff_witness :
    GridOK (Level.new 0 0) ∧ ∃ l1, insertTile (Level.new 0 0) 2 1 'B' = .done l1 :=
  ⟨by decide, (insertTile_invalidTile_iff (Level.new 0 0) 2 1 'B').2
    (by decide) (by decide) (by decide) (by decide)⟩

/-- C1, counterexample: `p` is none of the eight documented tile symbols, and
inserting it into a fresh level returns normally with the tile written. And the
documented tile `#` at `x = 2^32-1`, where `x+1` wraps to 0, does not return
normally: the write is outside the array. -/
theorem insertTile_accepts_p :
    'p' ∉ documentedTiles ∧
    insertTile (Level.new 0 0) 0 0 'p' =
      .done { Level.new 0 0 with m_LevelArray := [['p']] } ∧
    '#' ∈ documentedTiles ∧
    insertTile (Level.new 0 0) 4294967295 0 '#' = .undefined := by
  decide

/-- C2: whenever `insertTile` throws, the exception is the invalid-tile one, the
symbol is not in `validTiles`, and the level at the throw is the level before
the call: same array, same `getSizeX` and `getSizeY`, same every other member. -/
theorem insertTile_threw_unchanged (l l1 : Level) (x y : Nat) (symbol : Char) (e : Thrown)
    (h : insertTile l x y symbol = .threw e l1) :
    e = .invalidTile ∧ symbol ∉ validTiles ∧ l1 = l ∧
      l1.m_LevelArray = l.m_LevelArray ∧ getSizeX l1 = getSizeX l ∧
      getSizeY l1 = getSizeY l := by
  unfold insertTile at h
  by_cases hv : find_first_of validTiles symbol = none
  · rw [if_pos hv] at h
    injection h with he hl
    subst hl
    exact ⟨he.symm, (find_first_of_eq_none _ _).mp hv, rfl, rfl, rfl, rfl⟩
  · rw [if_neg hv] at h
    exfalso
    revert h
    dsimp only
    split
    · intro h; cases h
    · split <;> intro h <;> cases h

/-- C2, witness: the invalid symbol `x` on a fresh level. -/
theorem insertTile_threw_unchanged_witness :
    insertTile (Level.new 3 4) 1 2 'x' = .threw .invalidTile (Level.new 3 4) ∧
    (Thrown.invalidTile = .invalidTile ∧ 'x' ∉ validTiles ∧ Level.new 3 4 = Level.new 3 4 ∧
      (Level.new 3 4).m_LevelArray = (Level.new 3 4).m_LevelArray ∧
      getSizeX (Level.new 3 4) = getSizeX (Level.new 3 4) ∧
      getSizeY (Level.new 3 4) = getSizeY (Level.new 3 4)) :=
  ⟨by decide, insertTile_threw_unchanged (Level.new 3 4) (Level.new 3 4) 1 2 'x' .invalidTile
    (by decide)⟩

/-! ### The extents after a sequence of inserts (C3) -/

theorem insertAll_grid (calls : List (Nat × Nat × Char)) :
    ∀ (l : Level) (W H : Nat), IsGrid l.m_LevelArray W H → 0 < W →
    (∀ c ∈ calls, c.1 < UINT32_MINUS_ONE ∧ c.2.1 < UINT32_MINUS_ONE ∧ c.2.2 ∈ validTiles) →
    ∃ l1, insertAll l calls = .done l1 ∧
      IsGrid l1.m_LevelArray
        (if calls = [] then W else max W (maxX calls + 1))
        (if calls = [] then H else max H (maxY calls + 1)) := by
  induction calls with
  | nil => intro l W H hg _ _; exact ⟨l, rfl, by simpa using hg⟩
  | cons c rest ih =>
    intro l W H hg hW hok
    obtain ⟨x, y, tile⟩ := c
    have hc := hok (x, y, tile) (List.mem_cons_self _ _)
    simp only at hc
    have hne : find_first_of validTiles tile ≠ none :=
      fun e => ((find_first_of_eq_none _ _).mp e) hc.2.2
    obtain ⟨a3, hdone, hg3, _⟩ := insertTile_grid l hg hW
      (show x + 1 < UINT32_MOD by
        have := hc.1; unfold UINT32_MINUS_ONE at this; unfold UINT32_MOD; omega)
      (show y + 1 < UINT32_MOD by
        have := hc.2.1; unfold UINT32_MINUS_ONE at this; unfold UINT32_MOD; omega) hne
    obtain ⟨l1, h1, hg1⟩ := ih { l with m_LevelArray := a3 } _ _ hg3 (by omega)
      (fun c hcm => hok c (List.mem_cons_of_mem _ hcm))
    refine ⟨l1, ?_, ?_⟩
    · simp only [insertAll, hdone, h1]
    · simp only [reduceCtorEq, if_false, maxX, maxY]
      by_cases hr : rest = []
      · subst hr
        simp only [if_true, maxX, maxY] at hg1 ⊢
        simpa using hg1
      · simp only [hr, if_false] at hg1
        have e1 : max (max W (x + 1)) (maxX rest + 1) = max W (max x (maxX rest) + 1) := by omega
        have e2 : max (max H (y + 1)) (maxY rest + 1) = max H (max y (maxY rest) + 1) := by omega
        rw [e1, e2] at hg1
        exact hg1

/-- C3: every non-empty sequence of `insertTile` calls on a freshly constructed
level, with valid tiles and coordinates below 2^32-1, returns normally each time,
and afterwards `getSizeX` is the largest inserted `x` plus 1 and `getSizeY` the
largest inserted `y` plus 1. -/
theorem getSize_after_inserts (px py : Nat) (calls : List (Nat × Nat × Char))
    (hne : calls ≠ [])
    (hok : ∀ c ∈ calls,
      c.1 < UINT32_MINUS_ONE ∧ c.2.1 < UINT32_MINUS_ONE ∧ c.2.2 ∈ validTiles) :
    ∃ l, insertAll (Level.new px py) calls = .done l ∧
      getSizeX l = maxX calls + 1 ∧ getSizeY l = some (maxY calls + 1) := by
  obtain ⟨l, hdone, hlen, hcols⟩ := insertAll_grid calls (Level.new px py) 1 0
    ⟨rfl, by intro col hcol; simp [Level.new] at hcol; simp [hcol]⟩ (by omega) hok
  simp only [hne, if_false] at hlen hcols
  have hxb : maxX calls < UINT32_MINUS_ONE := by
    clear hlen hcols hdone hne
    induction calls with
    | nil => unfold UINT32_MINUS_ONE; simp [maxX]
    | cons c rest ih =>
      obtain ⟨x, y, t⟩ := c
      have h1 := (hok (x, y, t) (List.mem_cons_self _ _)).1
      have h2 := ih (fun c hc => hok c (List.mem_cons_of_mem _ hc))
      simp only [maxX] at h1 ⊢
      omega
  have hyb : maxY calls < UINT32_MINUS_ONE := by
    clear hlen hcols hdone hne hxb
    induction calls with
    | nil => unfold UINT32_MINUS_ONE; simp [maxY]
    | cons c rest ih =>
      obtain ⟨x, y, t⟩ := c
      have h1 := (hok (x, y, t) (List.mem_cons_self _ _)).2.1
      have h2 := ih (fun c hc => hok c (List.mem_cons_of_mem _ hc))
      simp only [maxY] at h1 ⊢
      omega
  unfold UINT32_MINUS_ONE at hxb hyb
  refine ⟨l, hdone, ?_, ?_⟩
  · unfold getSizeX
    rw [hlen, Nat.mod_eq_of_lt (by unfold UINT32_MOD; omega)]
    omega
  · unfold getSizeY
    cases ha : l.m_LevelArray with
    | nil => rw [ha] at hlen; simp at hlen
    | cons col0 rest =>
      have h0 := hcols col0 (by rw [ha]; exact List.mem_cons_self _ _)
      simp only [h0]
      have e : max 0 (maxY calls + 1) = maxY calls + 1 := by omega
      rw [e, Nat.mod_eq_of_lt (by unfold UINT32_MOD; omega)]

/-- C3, witness: three inserts, the largest `x` being 2 and the largest `y` 3. -/
theorem getSize_after_inserts_witness :
    ∃ l, insertAll (Level.new 0 0) [(2, 0, '#'), (0, 3, '@'), (1, 1, '$')] = .done l ∧
      getSizeX l = maxX [(2, 0, '#'), (0, 3, '@'), (1, 1, '$')] + 1 ∧
      getSizeY l = some (maxY [(2, 0, '#'), (0, 3, '@'), (1, 1, '$')] + 1) :=
  getSize_after_inserts 0 0 [(2, 0, '#'), (0, 3, '@'), (1, 1, '$')] (by decide) (by decide)

/-! ### One call of `insertTile` on a well-formed level -/

theorem Extends.refl (a : List (List Char)) (written : Nat → Nat → Prop) :
    Extends a a written :=
  ⟨fun _ _ _ h _ => h, fun i j ch h0 h1 _ => by rw [h0] at h1; cases h1⟩

theorem Extends.trans {a a1 a2 : List (List Char)} {w1 w2 w : Nat → Nat → Prop}
    (h1 : Extends a a1 w1) (h2 : Extends a1 a2 w2)
    (hw1 : ∀ i j, w1 i j → w i j) (hw2 : ∀ i j, w2 i j → w i j) :
    Extends a a2 w := by
  refine ⟨?_, ?_⟩
  · intro i j ch h hn
    exact h2.1 i j ch (h1.1 i j ch h (fun c => hn (hw1 i j c))) (fun c => hn (hw2 i j c))
  · intro i j ch h0 hs hn
    cases hm : at2 a1 i j with
    | none => exact h2.2 i j ch hm hs (fun c => hn (hw2 i j c))
    | some ch1 =>
      have e1 : ch1 = ' ' := h1.2 i j ch1 h0 hm (fun c => hn (hw1 i j c))
      have e2 := h2.1 i j ch1 hm (fun c => hn (hw2 i j c))
      rw [hs] at e2
      injection e2 with e2
      rw [e2, e1]

theorem at2_mem {a : List (List Char)} {i j : Nat} {t : Char} (h : at2 a i j = some t) :
    ∃ col ∈ a, t ∈ col := by
  unfold at2 at h
  cases hc : a[i]? with
  | none => rw [hc] at h; cases h
  | some col =>
    rw [hc] at h
    exact ⟨col, List.mem_iff_getElem?.mpr ⟨i, hc⟩, List.mem_iff_getElem?.mpr ⟨j, h⟩⟩

theorem mem_at2 {a : List (List Char)} {col : List Char} {t : Char} (hc : col ∈ a)
    (ht : t ∈ col) : ∃ i j, at2 a i j = some t := by
  obtain ⟨i, hi⟩ := List.mem_iff_getElem?.mp hc
  obtain ⟨j, hj⟩ := List.mem_iff_getElem?.mp ht
  exact ⟨i, j, by simp [at2, hi, hj]⟩

theorem IsGrid.set2_none {a : List (List Char)} {W H x y : Nat} (hg : IsGrid a W H)
    (h : ¬ (x < W ∧ y < H)) (c : Char) : Chocobun.set2 a x y c = none := by
  obtain ⟨hW, hH⟩ := hg
  unfold Chocobun.set2
  cases hc : a[x]? with
  | none => rfl
  | some col =>
    have hmem : col ∈ a := List.mem_iff_getElem?.mpr ⟨x, hc⟩
    have hx : x < a.length := by
      rcases List.getElem?_eq_some.mp hc with ⟨hx, _⟩
      exact hx
    have : ¬ y < col.length := by rw [hH col hmem]; omega
    simp [this]

theorem IsGrid.head_length {a : List (List Char)} {W H : Nat} (hg : IsGrid a W H)
    (hW : 0 < W) : (a.headD []).length = H := by
  cases a with
  | nil => have := hg.1; simp at this; omega
  | cons col0 rest => exact hg.2 col0 (List.mem_cons_self _ _)

theorem gridOK_of_isGrid {l : Level} {W H : Nat} (hg : IsGrid l.m_LevelArray W H)
    (hW : 0 < W) (hW2 : W < UINT32_MOD) (hH : H < UINT32_MOD)
    (ht : ∀ i j t, at2 l.m_LevelArray i j = some t → t ∈ validTiles) : GridOK l := by
  have hh := hg.head_length hW
  refine ⟨by rw [hg.1]; exact hW, by rw [hg.1]; exact hW2, by rw [hh]; exact hH, ?_, ?_⟩
  · intro col hc; rw [hh]; exact hg.2 col hc
  · intro col hc t htc
    obtain ⟨i, j, hij⟩ := mem_at2 hc htc
    exact ht i j t hij

theorem GridOK.tile_valid {l : Level} (h : GridOK l) {i j : Nat} {t : Char}
    (ht : at2 l.m_LevelArray i j = some t) : t ∈ validTiles := by
  obtain ⟨col, hc, htc⟩ := at2_mem ht
  exact h.2.2.2.2 col hc t htc

/-- A valid tile at a coordinate equal to 2^32-1 makes `insertTile` write outside
the array. -/
theorem insertTile_undefined (l : Level) {x y : Nat} {tile : Char} (hl : GridOK l)
    (hx : x < UINT32_MOD) (hy : y < UINT32_MOD)
    (hxy : ¬ (x + 1 < UINT32_MOD ∧ y + 1 < UINT32_MOD))
    (ht : find_first_of validTiles tile ≠ none) :
    insertTile l x y tile = .undefined := by
  have hg := hl.isGrid
  have hW := hl.1
  have hW2 := hl.2.1
  have hH2 := hl.2.2.1
  obtain ⟨hg1, _⟩ := hg.grow hW ((x + 1) % UINT32_MOD)
  unfold insertTile
  simp only [ht, if_false]
  generalize growColumns ((x + 1) % UINT32_MOD)
    ((x + 1) % UINT32_MOD - l.m_LevelArray.length) l.m_LevelArray = a1 at hg1
  cases a1 with
  | nil => rfl
  | cons col0 rest =>
    have h0 : col0.length = (l.m_LevelArray.headD []).length :=
      hg1.2 col0 (List.mem_cons_self _ _)
    have hmod : 0 < UINT32_MOD := by unfold UINT32_MOD; omega
    have hx1 : (x + 1) % UINT32_MOD < UINT32_MOD := Nat.mod_lt _ hmod
    have hy1 : (y + 1) % UINT32_MOD < UINT32_MOD := Nat.mod_lt _ hmod
    have hnone : ∀ a2 : List (List Char), ∀ H2 : Nat,
        IsGrid a2 (max l.m_LevelArray.length ((x + 1) % UINT32_MOD)) H2 →
        H2 = max (l.m_LevelArray.headD []).length ((y + 1) % UINT32_MOD) →
        Chocobun.set2 a2 x y tile = none := by
      intro a2 H2 hg2 hH
      apply hg2.set2_none
      intro hc
      by_cases hxc : x + 1 < UINT32_MOD
      · have hyc : y + 1 = UINT32_MOD := by omega
        have : (y + 1) % UINT32_MOD = 0 := by rw [hyc]; exact Nat.mod_self _
        rw [this] at hH
        omega
      · have hxc2 : x + 1 = UINT32_MOD := by omega
        have : (x + 1) % UINT32_MOD = 0 := by rw [hxc2]; exact Nat.mod_self _
        rw [this] at hc
        omega
    by_cases hgt : (y + 1) % UINT32_MOD > col0.length
    · simp only [hgt, if_true]
      rw [hnone _ _ (hg1.resizeAll _).1 (by omega)]
    · simp only [hgt, if_false]
      rw [hnone _ _ hg1 (by omega)]

/-- One call of `insertTile` on a well-formed level, when it leaves a level. -/
theorem insertTile_step (l l1 : Level) (x y : Nat) (tile : Char) (hl : GridOK l)
    (hx : x < UINT32_MOD) (hy : y < UINT32_MOD)
    (h : (insertTile l x y tile).state? = some l1) :
    GridOK l1 ∧ Extends l.m_LevelArray l1.m_LevelArray (fun i j => i = x ∧ j = y) ∧
    l1 = { l with m_LevelArray := l1.m_LevelArray } ∧
    (insertTile l x y tile = .done l1 →
      x + 1 < UINT32_MOD ∧ at2 l1.m_LevelArray x y = some tile) := by
  by_cases ht : find_first_of validTiles tile = none
  · have e : insertTile l x y tile = .threw .invalidTile l := by
      unfold insertTile; rw [if_pos ht]
    rw [e] at h
    simp only [Outcome.state?, Option.some.injEq] at h
    subst h
    exact ⟨hl, Extends.refl _ _, rfl, fun hd => by rw [e] at hd; cases hd⟩
  · by_cases hxy : x + 1 < UINT32_MOD ∧ y + 1 < UINT32_MOD
    · obtain ⟨a3, hdone, hg3, hat⟩ := insertTile_grid l hl.isGrid hl.1 hxy.1 hxy.2 ht
      rw [hdone] at h
      simp only [Outcome.state?, Option.some.injEq] at h
      subst h
      have hg := hl.isGrid
      refine ⟨?_, ⟨?_, ?_⟩, rfl, ?_⟩
      · apply gridOK_of_isGrid hg3
        · have := hl.1; omega
        · have := hl.2.1; omega
        · have := hl.2.2.1; omega
        · intro i j t hij
          simp only at hij
          rw [hat i j] at hij
          split at hij
          · injection hij with hij
            rw [← hij]
            exact (Classical.not_not.mp (fun c => ht ((find_first_of_eq_none _ _).mpr c)))
          · split at hij
            · injection hij with hij
              rw [← hij]
              unfold cellD
              cases hc : at2 l.m_LevelArray i j with
              | none => decide
              | some t0 => exact hl.tile_valid hc
            · cases hij
      · intro i j ch hij hn
        simp only
        rw [hat i j, if_neg hn]
        have hin : i < l.m_LevelArray.length ∧ j < (l.m_LevelArray.headD []).length := by
          by_contra hc
          rw [hg.at2_none hc] at hij
          cases hij
        have hin2 : i < max l.m_LevelArray.length (x + 1) ∧
            j < max (l.m_LevelArray.headD []).length (y + 1) := by omega
        rw [if_pos hin2]
        simp [cellD, hij]
      · intro i j ch h0 hs hn
        simp only at hs
        rw [hat i j, if_neg hn] at hs
        split at hs
        · injection hs with hs
          rw [← hs]
          simp [cellD, h0]
        · cases hs
      · intro _
        refine ⟨hxy.1, ?_⟩
        simp only
        rw [hat x y]
        simp
    · rw [insertTile_undefined l hl hx hy hxy ht] at h
      cases h

/-! ### The loop of `insertTileLine` on a well-formed level -/

/-- The loop of `insertTileLine` on a well-formed level, when it leaves a level. -/
theorem insertTileLineLoop_step (y : Nat) (tiles : List Char) (hy : y < UINT32_MOD) :
    ∀ (fuel k : Nat) (l l1 : Level), GridOK l → k < UINT32_MOD →
    (insertTileLineLoop y tiles fuel k l).state? = some l1 →
    GridOK l1 ∧
    Extends l.m_LevelArray l1.m_LevelArray (fun i j => j = y ∧ k ≤ i ∧ i < k + fuel) ∧
    l1 = { l with m_LevelArray := l1.m_LevelArray } ∧
    (insertTileLineLoop y tiles fuel k l = .done l1 →
      ∀ i, k ≤ i → i < k + fuel → at2 l1.m_LevelArray i y = tiles[i]?) := by
  intro fuel
  induction fuel with
  | zero =>
    intro k l l1 hl _ h
    simp only [insertTileLineLoop, Outcome.state?, Option.some.injEq] at h
    subst h
    exact ⟨hl, Extends.refl _ _, rfl, fun _ i h1 h2 => by omega⟩
  | succ fuel ih =>
    intro k l l1 hl hk h
    unfold insertTileLineLoop at h ⊢
    cases hc : tiles[k]? with
    | none => rw [hc] at h; cases h
    | some c =>
      rw [hc] at h
      simp only [Nat.mod_eq_of_lt hk] at h ⊢
      cases ho : insertTile l k y c with
      | undefined => rw [ho] at h; cases h
      | threw e l2 =>
        rw [ho] at h
        simp only [Outcome.state?, Option.some.injEq] at h
        subst h
        obtain ⟨hg, hext, hf, _⟩ := insertTile_step l l2 k y c hl hk hy (by rw [ho]; rfl)
        refine ⟨hg, ?_, hf, ?_⟩
        · exact hext.trans (Extends.refl _ (fun _ _ => False))
            (fun i j hw => ⟨hw.2, by omega, by omega⟩) (fun _ _ hw => hw.elim)
        · intro hd; cases hd
      | done l2 =>
        rw [ho] at h
        simp only at h
        obtain ⟨hg, hext, hf, hdone⟩ := insertTile_step l l2 k y c hl hk hy (by rw [ho]; rfl)
        obtain ⟨hk1, hcell⟩ := hdone ho
        obtain ⟨hg1, hext1, hf1, hdone1⟩ := ih (k + 1) l2 l1 hg hk1 h
        refine ⟨hg1, ?_, ?_, ?_⟩
        · exact hext.trans hext1
            (fun i j hw => ⟨hw.2, by omega, by omega⟩)
            (fun i j hw => ⟨hw.1, by omega, by omega⟩)
        · rw [hf1, hf]
        · intro hd i hik hif
          simp only at hd
          by_cases hi : i = k
          · subst hi
            rw [hc]
            exact hext1.1 i y c hcell (fun hw => by omega)
          · exact hdone1 hd i (by omega) (by omega)

/-- The loop of `insertTileLine` returns normally when every tile is valid and
every coordinate is below 2^32-1. -/
theorem insertTileLineLoop_done (y : Nat) (tiles : List Char) (hy : y < UINT32_MINUS_ONE)
    (hv : ∀ c ∈ tiles, c ∈ validTiles) :
    ∀ (fuel k : Nat) (l : Level), GridOK l → k + fuel ≤ tiles.length →
    k + fuel ≤ UINT32_MINUS_ONE →
    ∃ l1, insertTileLineLoop y tiles fuel k l = .done l1 := by
  have hy2 : y + 1 < UINT32_MOD := by
    unfold UINT32_MINUS_ONE at hy; unfold UINT32_MOD; omega
  intro fuel
  induction fuel with
  | zero => intro k l _ _ _; exact ⟨l, rfl⟩
  | succ fuel ih =>
    intro k l hl hlen hk
    have hk2 : k + 1 < UINT32_MOD := by
      unfold UINT32_MINUS_ONE at hk; unfold UINT32_MOD; omega
    have hk3 : k < UINT32_MOD := by omega
    have hkl : k < tiles.length := by omega
    have hne : find_first_of validTiles tiles[k] ≠ none :=
      fun e => ((find_first_of_eq_none _ _).mp e) (hv _ (List.getElem_mem hkl))
    obtain ⟨a3, hdone, _⟩ := insertTile_grid l hl.isGrid hl.1 hk2 hy2 hne
    obtain ⟨hg, _⟩ := insertTile_step l { l with m_LevelArray := a3 } k y tiles[k]
      hl hk3 (by omega) (by rw [hdone]; rfl)
    obtain ⟨l1, h1⟩ := ih (k + 1) _ hg (by omega) (by omega)
    refine ⟨l1, ?_⟩
    unfold insertTileLineLoop
    simp only [List.getElem?_eq_getElem hkl, Nat.mod_eq_of_lt hk3, hdone]
    exact h1

theorem gridOK_new (px py : Nat) : GridOK (Level.new px py) := by
  refine ⟨by simp [Level.new], by simp [Level.new, UINT32_MOD], by simp [Level.new, UINT32_MOD],
    ?_, ?_⟩
  · intro col hc
    simp only [Level.new, List.mem_singleton] at hc
    subst hc
    rfl
  · intro col hc t ht
    simp only [Level.new, List.mem_singleton] at hc
    subst hc
    cases ht

theorem reachable_gridOK {l : Level} (h : Reachable l) : GridOK l := by
  induction h with
  | fresh px py => exact gridOK_new px py
  | tile x y t _ hx hy hs ih => exact (insertTile_step _ _ x y t ih hx hy hs).1
  | line y tiles _ hy hs ih =>
    exact (insertTileLineLoop_step y tiles.data hy _ 0 _ _ ih
      (by unfold UINT32_MOD; omega) hs).1

/-! ### Rectangularity, floor padding and `getTile` (C4, C5) -/

theorem getTile_eq (l : Level) (hl : GridOK l) (x y : Nat) :
    getTile l x y =
      if 1 ≤ x ∧ x ≤ l.m_LevelArray.length ∧ 1 ≤ y ∧ y ≤ (l.m_LevelArray.headD []).length
      then at2 l.m_LevelArray (x - 1) (y - 1) else some (Char.ofNat 0) := by
  have hW := hl.1
  unfold getTile
  cases ha : l.m_LevelArray with
  | nil => rw [ha] at hW; simp at hW
  | cons col0 rest =>
    simp only [List.headD_cons, List.length_cons]
    by_cases hx : x < 1 ∨ x > rest.length + 1
    · have : ¬ (1 ≤ x ∧ x ≤ rest.length + 1 ∧ 1 ≤ y ∧ y ≤ col0.length) := by omega
      rw [if_pos hx, if_neg this]
    · rw [if_neg hx]
      by_cases hy : y < 1 ∨ y > col0.length
      · have : ¬ (1 ≤ x ∧ x ≤ rest.length + 1 ∧ 1 ≤ y ∧ y ≤ col0.length) := by omega
        rw [if_pos hy, if_neg this]
      · have : 1 ≤ x ∧ x ≤ rest.length + 1 ∧ 1 ≤ y ∧ y ≤ col0.length := by omega
        rw [if_neg hy, if_pos this]

theorem GridOK.getSizeX_eq {l : Level} (hl : GridOK l) :
    getSizeX l = l.m_LevelArray.length := Nat.mod_eq_of_lt hl.2.1

theorem GridOK.getSizeY_eq {l : Level} (hl : GridOK l) :
    getSizeY l = some (l.m_LevelArray.headD []).length := by
  have hW := hl.1
  have hH := hl.2.2.1
  unfold getSizeY
  cases ha : l.m_LevelArray with
  | nil => rw [ha] at hW; simp at hW
  | cons col0 rest =>
    rw [ha] at hH
    simp only [List.headD_cons] at hH ⊢
    rw [Nat.mod_eq_of_lt hH]

theorem GridOK.in_range {l : Level} (hl : GridOK l) {i j : Nat} {t : Char}
    (h : at2 l.m_LevelArray i j = some t) :
    i < l.m_LevelArray.length ∧ j < (l.m_LevelArray.headD []).length := by
  by_contra hc
  rw [hl.isGrid.at2_none hc] at h
  cases h

/-- C4: in every level that calls of `insertTile` and `insertTileLine`,
returning or throwing, produce from a freshly constructed level, all columns of
the grid have the same length; and whatever such a call is made next, every cell
that the grid gains by it, other than the cell or row segment the call writes,
holds floor. -/
theorem reachable_rectangular_floor (l : Level) (h : Reachable l) :
    (∀ c1 ∈ l.m_LevelArray, ∀ c2 ∈ l.m_LevelArray, c1.length = c2.length) ∧
    (∀ x y tile l1, x < UINT32_MOD → y < UINT32_MOD →
      (insertTile l x y tile).state? = some l1 →
      ∀ i j ch, at2 l.m_LevelArray i j = none → at2 l1.m_LevelArray i j = some ch →
        ¬ (i = x ∧ j = y) → ch = ' ') ∧
    (∀ y tiles l1, y < UINT32_MOD → (insertTileLine l y tiles).state? = some l1 →
      ∀ i j ch, at2 l.m_LevelArray i j = none → at2 l1.m_LevelArray i j = some ch →
        ¬ (j = y ∧ i < tiles.length) → ch = ' ') := by
  have hl := reachable_gridOK h
  refine ⟨?_, ?_, ?_⟩
  · intro c1 h1 c2 h2
    rw [hl.2.2.2.1 c1 h1, hl.2.2.2.1 c2 h2]
  · intro x y tile l1 hx hy hs i j ch h0 h1 hn
    exact (insertTile_step l l1 x y tile hl hx hy hs).2.1.2 i j ch h0 h1 hn
  · intro y tiles l1 hy hs i j ch h0 h1 hn
    have hstep := insertTileLineLoop_step y tiles.data hy tiles.data.length 0 l l1 hl
      (by unfold UINT32_MOD; omega) hs
    refine hstep.2.1.2 i j ch h0 h1 (fun hw => hn ⟨hw.1, ?_⟩)
    have := hw.2.2
    show i < tiles.data.length
    omega

/-- C4, witness: the level after `insertTile(1, 1, '#')` on a fresh level. -/
theorem reachable_rectangular_floor_witness :
    Reachable { Level.new 0 0 with m_LevelArray := [[' ', ' '], [' ', '#']] } ∧
    ∀ c1 ∈ [[' ', ' '], [' ', '#']], ∀ c2 ∈ [[' ', ' '], [' ', '#']],
      c1.length = c2.length :=
  ⟨Reachable.tile 1 1 '#' (Reachable.fresh 0 0) (by decide) (by decide) (by decide),
   (reachable_rectangular_floor { Level.new 0 0 with m_LevelArray := [[' ', ' '], [' ', '#']] }
    (Reachable.tile 1 1 '#' (Reachable.fresh 0 0) (by decide) (by decide) (by decide))).1⟩

/-- C5: on a well-formed level `getTile(x, y)` returns the null character exactly
when `x` is outside `[1, getSizeX]` or `y` is outside `[1, getSizeY]`, and
otherwise the tile stored at the 0-based cell `[x-1][y-1]`; an `insertTile(x, y,
s)` with a valid tile and coordinates below 2^32-1 returns normally, after it
`getTile(x+1, y+1)` is `s`, and on every other cell that existed before the call
`getTile` returns what it returned before. -/
theorem getTile_one_based (l : Level) (hl : GridOK l) :
    (∃ sy, getSizeY l = some sy ∧ ∀ x y,
      (getTile l x y = some (Char.ofNat 0) ↔ (x < 1 ∨ getSizeX l < x ∨ y < 1 ∨ sy < y)) ∧
      (¬ (x < 1 ∨ getSizeX l < x ∨ y < 1 ∨ sy < y) →
        ∃ t, at2 l.m_LevelArray (x - 1) (y - 1) = some t ∧ getTile l x y = some t)) ∧
    (∀ x y s, x < UINT32_MINUS_ONE → y < UINT32_MINUS_ONE → s ∈ validTiles →
      ∃ l1, insertTile l x y s = .done l1 ∧
        getTile l1 (x + 1) (y + 1) = some s ∧
        ∀ sy, getSizeY l = some sy → ∀ i j, 1 ≤ i → i ≤ getSizeX l → 1 ≤ j → j ≤ sy →
          ¬ (i = x + 1 ∧ j = y + 1) → getTile l1 i j = getTile l i j) := by
  have hg := hl.isGrid
  refine ⟨⟨_, hl.getSizeY_eq, ?_⟩, ?_⟩
  · intro x y
    rw [hl.getSizeX_eq, getTile_eq l hl]
    by_cases hin : 1 ≤ x ∧ x ≤ l.m_LevelArray.length ∧ 1 ≤ y ∧
        y ≤ (l.m_LevelArray.headD []).length
    · have hs := hg.at2_some (i := x - 1) (j := y - 1) (by omega) (by omega)
      have hv := hl.tile_valid hs
      have hne : cellD l.m_LevelArray (x - 1) (y - 1) ≠ Char.ofNat 0 := by
        intro e
        rw [e] at hv
        revert hv
        decide
      rw [if_pos hin, hs]
      refine ⟨⟨?_, ?_⟩, ?_⟩
      · intro e
        injection e with e
        exact (hne e).elim
      · intro hc; omega
      · intro _; exact ⟨_, rfl, rfl⟩
    · rw [if_neg hin]
      refine ⟨⟨fun _ => by omega, fun _ => rfl⟩, fun hc => ?_⟩
      omega
  · intro x y s hx hy hs
    have hx1 : x + 1 < UINT32_MOD := by
      unfold UINT32_MINUS_ONE at hx; unfold UINT32_MOD; omega
    have hy1 : y + 1 < UINT32_MOD := by
      unfold UINT32_MINUS_ONE at hy; unfold UINT32_MOD; omega
    have hne : find_first_of validTiles s ≠ none :=
      fun e => ((find_first_of_eq_none _ _).mp e) hs
    obtain ⟨a3, hdone, hg3, hat⟩ := insertTile_grid l hg hl.1 hx1 hy1 hne
    obtain ⟨hl1, _⟩ := insertTile_step l { l with m_LevelArray := a3 } x y s
      hl (by omega) (by omega) (by rw [hdone]; rfl)
    refine ⟨_, hdone, ?_, ?_⟩
    · rw [getTile_eq _ hl1]
      have hxy : at2 a3 x y = some s := by rw [hat x y]; simp
      have hr := hl1.in_range hxy
      simp only at hr ⊢
      rw [if_pos (by omega)]
      simpa using hxy
    · intro sy hsy i j hi1 hi2 hj1 hj2 hn
      rw [hl.getSizeX_eq] at hi2
      rw [hl.getSizeY_eq] at hsy
      injection hsy with hsy
      subst hsy
      have hold := hg.at2_some (i := i - 1) (j := j - 1) (by omega) (by omega)
      have hnew : at2 a3 (i - 1) (j - 1) = some (cellD l.m_LevelArray (i - 1) (j - 1)) := by
        rw [hat (i - 1) (j - 1), if_neg (by omega), if_pos (by omega)]
      have hr := hl1.in_range hnew
      simp only at hr
      rw [getTile_eq _ hl1, getTile_eq l hl]
      simp only
      rw [if_pos (by omega), if_pos (by omega), hnew, hold]

/-- C5, witness: a 2 by 2 grid and the insert of `*` at `(2, 0)`. -/
theorem getTile_one_based_witness :
    GridOK { Level.new 0 0 with m_LevelArray := [['#', '@'], ['$', '.']] } ∧
    ∃ l1, insertTile { Level.new 0 0 with m_LevelArray := [['#', '@'], ['$', '.']] } 2 0 '*'
        = .done l1 ∧
      getTile l1 (2 + 1) (0 + 1) = some '*' ∧
      ∀ sy, getSizeY { Level.new 0 0 with m_LevelArray := [['#', '@'], ['$', '.']] } = some sy →
        ∀ i j, 1 ≤ i →
          i ≤ getSizeX { Level.new 0 0 with m_LevelArray := [['#', '@'], ['$', '.']] } →
          1 ≤ j → j ≤ sy → ¬ (i = 2 + 1 ∧ j = 0 + 1) →
          getTile l1 i j =
            getTile { Level.new 0 0 with m_LevelArray := [['#', '@'], ['$', '.']] } i j :=
  ⟨by decide,
   (getTile_one_based { Level.new 0 0 with m_LevelArray := [['#', '@'], ['$', '.']] }
    (by decide)).2 2 0 '*' (by decide) (by decide) (by decide)⟩

/-! ### `insertTileLine` as a sequence of inserts (C6) -/

theorem insertTileLineLoop_eq_insertEach (y : Nat) (ts : List Char) :
    ∀ (pre : List Char) (l : Level), pre.length + ts.length ≤ UINT32_MOD →
    insertTileLineLoop y (pre ++ ts) ts.length pre.length l
      = insertEach y (List.enumFrom pre.length ts) l := by
  induction ts with
  | nil => intro pre l _; rfl
  | cons c ts ih =>
    intro pre l hlen
    simp only [List.length_cons] at hlen
    have hk : pre.length < UINT32_MOD := by omega
    have hget : (pre ++ c :: ts)[pre.length]? = some c := by
      rw [List.getElem?_append_right (le_refl _)]
      simp
    have hih := ih (pre ++ [c])
    simp only [List.length_append, List.length_singleton, List.append_assoc,
      List.singleton_append] at hih
    simp only [List.length_cons, insertTileLineLoop, hget, Nat.mod_eq_of_lt hk,
      List.enumFrom_cons, insertEach]
    cases insertTile l pre.length y c with
    | done l2 => exact hih l2 (by omega)
    | threw e l2 => rfl
    | undefined => rfl

/-- C6: `insertTileLine(y, text)` ends as the calls `insertTile(i, y, text[i])`
for `i = 0, 1, ...` made in that order do; when the level is well formed, every
symbol of the text is valid, `y` is below 2^32-1 and the text is at most 2^32-1
long, it returns normally and afterwards `getTile(i+1, y+1)` is `text[i]` for
every `i` below the length; for the empty text the level is unchanged. -/
theorem insertTileLine_as_inserts (l : Level) (y : Nat) (text : String) :
    (text.length ≤ UINT32_MOD →
      insertTileLine l y text = insertEach y text.data.enum l) ∧
    (GridOK l → y < UINT32_MINUS_ONE → text.length ≤ UINT32_MINUS_ONE →
      (∀ c ∈ text.data, c ∈ validTiles) →
      ∃ l1, insertTileLine l y text = .done l1 ∧
        ∀ i (hi : i < text.data.length), getTile l1 (i + 1) (y + 1) = some text.data[i]) ∧
    insertTileLine l y "" = .done l := by
  refine ⟨?_, ?_, rfl⟩
  · intro hlen
    have hlen2 : text.data.length ≤ UINT32_MOD := hlen
    have h := insertTileLineLoop_eq_insertEach y text.data [] l
      (by simp only [List.length_nil]; omega)
    simp only [List.nil_append, List.length_nil] at h
    unfold insertTileLine List.enum
    exact h
  · intro hl hy hlen hv
    have hlen2 : text.data.length ≤ UINT32_MINUS_ONE := hlen
    have hy2 : y < UINT32_MOD := by
      unfold UINT32_MINUS_ONE at hy; unfold UINT32_MOD; omega
    obtain ⟨l1, hdone⟩ := insertTileLineLoop_done y text.data hy hv text.data.length 0 l hl
      (by omega) (by omega)
    obtain ⟨hl1, _, _, hcells⟩ := insertTileLineLoop_step y text.data hy2 text.data.length 0
      l l1 hl (by unfold UINT32_MOD; omega) (by rw [hdone]; rfl)
    refine ⟨l1, hdone, ?_⟩
    intro i hi
    have hc := hcells hdone i (by omega) (by omega)
    rw [List.getElem?_eq_getElem hi] at hc
    have hr := hl1.in_range hc
    rw [getTile_eq l1 hl1, if_pos (by omega)]
    simpa using hc

/-- C6, witness: the line `@$.` in row 1 of a fresh level. -/
theorem insertTileLine_as_inserts_witness :
    GridOK (Level.new 0 0) ∧
    ∃ l1, insertTileLine (Level.new 0 0) 1 "@$." = .done l1 ∧
      ∀ i (hi : i < "@$.".data.length), getTile l1 (i + 1) (1 + 1) = some "@$.".data[i] :=
  ⟨by decide,
   (insertTileLine_as_inserts (Level.new 0 0) 1 "@$.").2.1 (by decide) (by decide) (by decide)
    (by decide)⟩

/-! ### Meta data (C7) -/

theorem mapFind_mapAssign (m : List (String × String)) (key value k : String) :
    mapFind (mapAssign m key value) k = if k = key then some value else mapFind m k := by
  induction m with
  | nil =>
    by_cases h : k = key
    · simp [mapAssign, mapFind, h]
    · have h2 : ¬ key = k := fun e => h e.symm
      simp [mapAssign, mapFind, h, h2]
  | cons p rest ih =>
    obtain ⟨k0, v0⟩ := p
    unfold mapAssign
    by_cases h0 : k0 = key
    · subst h0
      by_cases h : k = k0
      · subst h; simp [mapFind]
      · have h2 : ¬ k0 = k := fun e => h e.symm
        simp [mapFind, h, h2]
    · by_cases h : k0 = k
      · subst h
        have h2 : ¬ k0 = key := h0
        simp [mapFind, h0, h2]
      · simp [mapFind, h0, h, ih]

theorem addAll_find (calls : List (String × String)) (k : String) :
    ∀ l : Level, ∃ l1, addAll l calls = some l1 ∧
      (mapFind l1.m_MetaData k = none ↔
        mapFind l.m_MetaData k = none ∧ k ∉ calls.map Prod.fst) := by
  induction calls with
  | nil => intro l; exact ⟨l, rfl, by simp⟩
  | cons c rest ih =>
    intro l
    obtain ⟨key, value⟩ := c
    by_cases hp : mapFind l.m_MetaData key = none
    · obtain ⟨l1, h1, hiff⟩ := ih { l with m_MetaData := mapAssign l.m_MetaData key value }
      refine ⟨l1, by simp [addAll, addMetaData, hp, Outcome.state?, h1], ?_⟩
      rw [hiff]
      simp only [mapFind_mapAssign, List.map_cons, List.mem_cons, not_or]
      by_cases hk : k = key
      · simp [hk]
      · simp [hk]
    · obtain ⟨l1, h1, hiff⟩ := ih l
      refine ⟨l1, by simp [addAll, addMetaData, hp, Outcome.state?, h1], ?_⟩
      rw [hiff]
      simp only [List.map_cons, List.mem_cons, not_or]
      by_cases hk : k = key
      · subst hk; simp [hp]
      · simp [hk]

/-- C7: `addMetaData(k, v)` throws its duplicate-key exception if and only if
`getMetaData(k)` already returns a value, and then the level is unchanged;
otherwise it returns normally, after which `getMetaData(k)` returns `v` and
every other key answers as before. After any sequence of `addMetaData` calls on
a fresh level, `getMetaData(k)` throws its not-found exception if and only if
`k` was the key of none of the calls. Keys that differ in case are different
keys. -/
theorem metaData_keys_unique (l : Level) (k v : String) :
    ((∃ l1, addMetaData l k v = .threw .duplicateMetaDataKey l1) ↔
      ∃ v0, getMetaData l k = .ok v0) ∧
    ((∃ v0, getMetaData l k = .ok v0) → addMetaData l k v = .threw .duplicateMetaDataKey l) ∧
    ((¬ ∃ v0, getMetaData l k = .ok v0) →
      ∃ l1, addMetaData l k v = .done l1 ∧ getMetaData l1 k = .ok v ∧
        ∀ k1, k1 ≠ k → getMetaData l1 k1 = getMetaData l k1) ∧
    (∀ (px py : Nat) (calls : List (String × String)),
      ∃ l1, addAll (Level.new px py) calls = some l1 ∧
        (getMetaData l1 k = .error .metaDataKeyNotFound ↔ k ∉ calls.map Prod.fst)) ∧
    (∃ l1 l2, addMetaData (Level.new 0 0) "Author" "a" = .done l1 ∧
      addMetaData l1 "author" "b" = .done l2 ∧
      getMetaData l2 "Author" = .ok "a" ∧ getMetaData l2 "author" = .ok "b") := by
  have hget : ∀ (l0 : Level) (k0 : String),
      (∃ v0, getMetaData l0 k0 = .ok v0) ↔ mapFind l0.m_MetaData k0 ≠ none := by
    intro l0 k0
    unfold getMetaData
    cases mapFind l0.m_MetaData k0 with
    | none => simp
    | some v1 => simp
  have hnf : ∀ (l0 : Level) (k0 : String),
      getMetaData l0 k0 = .error .metaDataKeyNotFound ↔ mapFind l0.m_MetaData k0 = none := by
    intro l0 k0
    unfold getMetaData
    cases mapFind l0.m_MetaData k0 with
    | none => simp
    | some v1 => simp
  refine ⟨?_, ?_, ?_, ?_, ?_⟩
  · rw [hget]
    unfold addMetaData
    by_cases hp : mapFind l.m_MetaData k ≠ none
    · rw [if_pos hp]
      exact ⟨fun _ => hp, fun _ => ⟨l, rfl⟩⟩
    · rw [if_neg hp]
      refine ⟨?_, fun h => (hp h).elim⟩
      rintro ⟨l1, h⟩
      cases h
  · rw [hget]
    intro hp
    unfold addMetaData
    rw [if_pos hp]
  · rw [hget]
    intro hp
    unfold addMetaData
    rw [if_neg hp]
    refine ⟨_, rfl, ?_, ?_⟩
    · simp [getMetaData, mapFind_mapAssign]
    · intro k1 hk1
      simp [getMetaData, mapFind_mapAssign, hk1]
  · intro px py calls
    obtain ⟨l1, h1, hiff⟩ := addAll_find calls k (Level.new px py)
    refine ⟨l1, h1, ?_⟩
    rw [hnf, hiff]
    simp [Level.new, mapFind]
  · refine ⟨_, _, rfl, rfl, ?_, ?_⟩ <;> rfl

/-- C7, witness: the key `Title` on a fresh level. -/
theorem metaData_keys_unique_witness :
    (¬ ∃ v0, getMetaData (Level.new 0 0) "Title" = .ok v0) ∧
    ∃ l1, addMetaData (Level.new 0 0) "Title" "One" = .done l1 ∧
      getMetaData l1 "Title" = .ok "One" ∧
      ∀ k1, k1 ≠ "Title" → getMetaData l1 k1 = getMetaData (Level.new 0 0) k1 :=
  ⟨by simp [getMetaData, Level.new, mapFind],
   (metaData_keys_unique (Level.new 0 0) "Title" "One").2.2.1
    (by simp [getMetaData, Level.new, mapFind])⟩

/-! ### `validateLevel` (C8, C9) -/

theorem validateColumn_none (x : Nat) (ys : List Nat) :
    ∀ (found : Bool) (l : Level),
    (∀ y ∈ ys, ∃ t, at2 l.m_LevelArray x y = some t ∧ t ≠ '@') →
    validateColumn x ys found l = some (.finished found l) := by
  induction ys with
  | nil => intro found l _; rfl
  | cons y ys ih =>
    intro found l h
    obtain ⟨t, ht, hne⟩ := h y (List.mem_cons_self _ _)
    unfold validateColumn
    simp only [ht, hne, if_false]
    exact ih found l (fun y1 h1 => h y1 (List.mem_cons_of_mem _ h1))

theorem validateColumn_one (x py : Nat) (ys : List Nat) :
    ∀ (l : Level), ys.Nodup → py ∈ ys → at2 l.m_LevelArray x py = some '@' →
    (∀ y ∈ ys, y ≠ py → ∃ t, at2 l.m_LevelArray x y = some t ∧ t ≠ '@') →
    validateColumn x ys false l = some (.finished true
      { l with m_PlayerX := x % UINT32_MOD, m_PlayerY := py % UINT32_MOD }) := by
  induction ys with
  | nil => intro l _ hmem; cases hmem
  | cons y ys ih =>
    intro l hnd hmem hp hothers
    obtain ⟨hny, hnd1⟩ := List.nodup_cons.mp hnd
    unfold validateColumn
    by_cases hy : y = py
    · subst hy
      simp only [hp, if_true]
      exact validateColumn_none x ys true _ (fun y1 h1 =>
        hothers y1 (List.mem_cons_of_mem _ h1) (fun e => hny (e ▸ h1)))
    · obtain ⟨t, ht, hne⟩ := hothers y (List.mem_cons_self _ _) hy
      simp only [ht, hne, if_false]
      have hmem1 : py ∈ ys := by
        rcases List.mem_cons.mp hmem with e | e
        · exact (hy e.symm).elim
        · exact e
      exact ih l hnd1 hmem1 hp (fun y1 h1 => hothers y1 (List.mem_cons_of_mem _ h1))

theorem validateColumns_cons (x : Nat) (xs : List Nat) (found : Bool) (l : Level)
    (col0 : List Char) (rest : List (List Char)) (ha : l.m_LevelArray = col0 :: rest) :
    validateColumns (x :: xs) found l =
      match validateColumn x (List.range col0.length) found l with
      | none => none
      | some (.returnedFalse l1) => some (.returnedFalse l1)
      | some (.finished found1 l1) => validateColumns xs found1 l1 := by
  rw [validateColumns, ha]

theorem validateColumns_none (H : Nat) (xs : List Nat) :
    ∀ (found : Bool) (l : Level), (l.m_LevelArray.headD []).length = H →
    l.m_LevelArray ≠ [] →
    (∀ x ∈ xs, ∀ y, y < H → ∃ t, at2 l.m_LevelArray x y = some t ∧ t ≠ '@') →
    validateColumns xs found l = some (.finished found l) := by
  induction xs with
  | nil => intro found l _ _ _; rfl
  | cons x xs ih =>
    intro found l hH hne h
    obtain ⟨col0, rest, ha⟩ := List.exists_cons_of_ne_nil hne
    have hH0 : col0.length = H := by rw [ha] at hH; exact hH
    have hcol := validateColumn_none x (List.range col0.length) found l
      (fun y hy => h x (List.mem_cons_self _ _) y (by rw [← hH0]; exact List.mem_range.mp hy))
    rw [validateColumns_cons x xs found l col0 rest ha, hcol]
    exact ih found l hH hne (fun x1 h1 => h x1 (List.mem_cons_of_mem _ h1))

theorem validateColumns_one (H px py : Nat) (xs : List Nat) :
    ∀ (l : Level), (l.m_LevelArray.headD []).length = H → l.m_LevelArray ≠ [] →
    xs.Nodup → px ∈ xs → py < H → at2 l.m_LevelArray px py = some '@' →
    (∀ x ∈ xs, ∀ y, y < H → ¬ (x = px ∧ y = py) →
      ∃ t, at2 l.m_LevelArray x y = some t ∧ t ≠ '@') →
    validateColumns xs false l = some (.finished true
      { l with m_PlayerX := px % UINT32_MOD, m_PlayerY := py % UINT32_MOD }) := by
  induction xs with
  | nil => intro l _ _ _ hmem; cases hmem
  | cons x xs ih =>
    intro l hH hne hnd hmem hpy hp hothers
    obtain ⟨hnx, hnd1⟩ := List.nodup_cons.mp hnd
    obtain ⟨col0, rest, ha⟩ := List.exists_cons_of_ne_nil hne
    have hH0 : col0.length = H := by rw [ha] at hH; exact hH
    by_cases hx : x = px
    · subst hx
      have hcol := validateColumn_one x py (List.range col0.length) l (List.nodup_range _)
        (List.mem_range.mpr (by omega)) hp
        (fun y hy hne1 => hothers x (List.mem_cons_self _ _) y
          (by rw [← hH0]; exact List.mem_range.mp hy) (fun c => hne1 c.2))
      rw [validateColumns_cons x xs false l col0 rest ha, hcol]
      exact validateColumns_none H xs true _ hH hne (fun x1 h1 y hy =>
        hothers x1 (List.mem_cons_of_mem _ h1) y hy (fun c => hnx (c.1 ▸ h1)))
    · have hcol := validateColumn_none x (List.range col0.length) false l
        (fun y hy => hothers x (List.mem_cons_self _ _) y
          (by rw [← hH0]; exact List.mem_range.mp hy) (fun c => hx c.1))
      rw [validateColumns_cons x xs false l col0 rest ha, hcol]
      have hmem1 : px ∈ xs := by
        rcases List.mem_cons.mp hmem with e | e
        · exact (hx e.symm).elim
        · exact e
      exact ih l hH hne hnd1 hmem1 hpy hp
        (fun x1 h1 => hothers x1 (List.mem_cons_of_mem _ h1))

theorem insertTile_valid_flag (l l1 : Level) (x y : Nat) (tile : Char)
    (h : (insertTile l x y tile).state? = some l1) :
    l1.m_IsLevelValid = l.m_IsLevelValid := by
  unfold insertTile at h
  split at h
  · simp only [Outcome.state?, Option.some.injEq] at h; subst h; rfl
  · revert h
    dsimp only
    split
    · intro h; cases h
    · split
      · intro h; cases h
      · intro h
        simp only [Outcome.state?, Option.some.injEq] at h
        subst h
        rfl

theorem insertTileLineLoop_valid_flag (y : Nat) (tiles : List Char) :
    ∀ (fuel k : Nat) (l l1 : Level),
    (insertTileLineLoop y tiles fuel k l).state? = some l1 →
    l1.m_IsLevelValid = l.m_IsLevelValid := by
  intro fuel
  induction fuel with
  | zero =>
    intro k l l1 h
    simp only [insertTileLineLoop, Outcome.state?, Option.some.injEq] at h
    subst h; rfl
  | succ fuel ih =>
    intro k l l1 h
    unfold insertTileLineLoop at h
    cases hc : tiles[k]? with
    | none => rw [hc] at h; cases h
    | some c =>
      rw [hc] at h
      dsimp only at h
      cases ho : insertTile l (k % UINT32_MOD) y c with
      | undefined => rw [ho] at h; cases h
      | threw e l2 =>
        rw [ho] at h
        simp only [Outcome.state?, Option.some.injEq] at h
        subst h
        exact insertTile_valid_flag l _ _ y c (by rw [ho]; rfl)
      | done l2 =>
        rw [ho] at h
        simp only at h
        rw [ih (k + 1) l2 l1 h]
        exact insertTile_valid_flag l _ _ y c (by rw [ho]; rfl)

theorem later_valid {l l1 : Level} (h : Later l l1) (hv : l.m_IsLevelValid = true) :
    l1.m_IsLevelValid = true := by
  induction h with
  | refl => exact hv
  | tile x y t _ hs ih => rw [insertTile_valid_flag _ _ x y t hs]; exact ih
  | line y ts _ hs ih =>
    rw [insertTileLineLoop_valid_flag y ts.data _ 0 _ _ hs]; exact ih
  | validate b _ hs ih =>
    unfold validateLevel at hs
    rw [if_pos ih] at hs
    injection hs with hs
    injection hs with _ hs
    rw [← hs]; exact ih

/-- C8: on a well-formed, unvalidated level whose grid holds `@` at the 0-based
cell `(px, py)` and nowhere else, `validateLevel` returns true, stores `(px,
py)` in `m_PlayerX`, `m_PlayerY` and sets `m_IsLevelValid`; and on every level
that later calls of `insertTile`, `insertTileLine` and `validateLevel` make of
it, whatever they write, `validateLevel` returns true and changes nothing. -/
theorem validateLevel_one_player (l : Level) (px py : Nat) (hl : GridOK l)
    (hu : l.m_IsLevelValid = false) (hp : at2 l.m_LevelArray px py = some '@')
    (h1 : ∀ i j, at2 l.m_LevelArray i j = some '@' → i = px ∧ j = py) :
    validateLevel l = some (true,
      { l with m_PlayerX := px, m_PlayerY := py, m_IsLevelValid := true }) ∧
    ∀ l1, Later { l with m_PlayerX := px, m_PlayerY := py, m_IsLevelValid := true } l1 →
      validateLevel l1 = some (true, l1) := by
  refine ⟨?_, ?_⟩
  · have hr := hl.in_range hp
    have hne : l.m_LevelArray ≠ [] := by
      intro e; have := hl.1; rw [e] at this; simp at this
    have hpx : px % UINT32_MOD = px := Nat.mod_eq_of_lt (by have := hl.2.1; omega)
    have hpy : py % UINT32_MOD = py := Nat.mod_eq_of_lt (by have := hl.2.2.1; omega)
    have hscan := validateColumns_one (l.m_LevelArray.headD []).length px py
      (List.range l.m_LevelArray.length) l rfl hne (List.nodup_range _)
      (List.mem_range.mpr hr.1) hr.2 hp
      (fun x hx y hy hn => by
        have hs := hl.isGrid.at2_some (List.mem_range.mp hx) hy
        refine ⟨_, hs, fun e => hn ?_⟩
        rw [e] at hs
        exact h1 x y hs)
    unfold validateLevel
    simp only [hu, Bool.false_eq_true, if_false, hscan, hpx, hpy]
  · intro l1 hlater
    have hv := later_valid hlater rfl
    unfold validateLevel
    rw [if_pos hv]

/-- C8, witness: a 2 by 2 grid with its only `@` at `(1, 0)`. -/
theorem validateLevel_one_player_witness :
    GridOK { Level.new 9 9 with m_LevelArray := [['#', '#'], ['@', '.']] } ∧
    validateLevel { Level.new 9 9 with m_LevelArray := [['#', '#'], ['@', '.']] } =
      some (true, { Level.new 9 9 with
        m_LevelArray := [['#', '#'], ['@', '.']]
        m_PlayerX := 1, m_PlayerY := 0, m_IsLevelValid := true }) :=
  ⟨by decide,
   (validateLevel_one_player { Level.new 9 9 with m_LevelArray := [['#', '#'], ['@', '.']] }
    1 0 (by decide) rfl (by decide) (by
      intro i j h
      have hr := GridOK.in_range (l := { Level.new 9 9 with
        m_LevelArray := [['#', '#'], ['@', '.']] }) (by decide) h
      simp only [List.length_cons, List.length_nil, List.headD_cons] at hr
      have hi : i = 0 ∨ i = 1 := by omega
      have hj : j = 0 ∨ j = 1 := by omega
      rcases hi with rfl | rfl <;> rcases hj with rfl | rfl <;> revert h <;> decide)).1⟩

/-! ### A grid without a player (C9) and moves before validation (C10) -/

/-- On every well-formed, unvalidated level without an `@` the scan of
`validateLevel` runs to its end, so the call sets `m_IsLevelValid` and returns
true; `m_PlayerX` and `m_PlayerY` keep the values they had. -/
theorem validateLevel_no_player (l : Level) (hl : GridOK l) (hu : l.m_IsLevelValid = false)
    (h0 : ∀ i j, at2 l.m_LevelArray i j ≠ some '@') :
    validateLevel l = some (true, { l with m_IsLevelValid := true }) := by
  have hne : l.m_LevelArray ≠ [] := by
    intro e; have := hl.1; rw [e] at this; simp at this
  have hscan := validateColumns_none (l.m_LevelArray.headD []).length
    (List.range l.m_LevelArray.length) false l rfl hne
    (fun x hx y hy => by
      have hs := hl.isGrid.at2_some (List.mem_range.mp hx) hy
      refine ⟨_, hs, fun e => ?_⟩
      rw [e] at hs
      exact h0 x y hs)
  unfold validateLevel
  simp only [hu, Bool.false_eq_true, if_false, hscan]

/-- C9, the code on a grid without a player: after `insertTileLine(0, "#$.#")` on
a fresh level, `validateLevel` returns true and sets `m_IsLevelValid`, with
`m_PlayerX` and `m_PlayerY` still the indeterminate values of the constructor.
On the grid `"@@"`, with two players, it returns false and leaves the level
unvalidated. -/
theorem validateLevel_zero_players_true :
    insertTileLine (Level.new 7 9) 0 "#$.#" =
      .done { Level.new 7 9 with m_LevelArray := [['#'], ['$'], ['.'], ['#']] } ∧
    validateLevel { Level.new 7 9 with m_LevelArray := [['#'], ['$'], ['.'], ['#']] } =
      some (true, { Level.new 7 9 with
        m_LevelArray := [['#'], ['$'], ['.'], ['#']], m_IsLevelValid := true }) ∧
    validateLevel { Level.new 7 9 with m_LevelArray := [['@'], ['@']] } =
      some (false, { Level.new 7 9 with
        m_LevelArray := [['@'], ['@']], m_PlayerX := 0, m_PlayerY := 0 }) := by
  decide

/-- C10: on an unvalidated level each of `moveUp`, `moveDown`, `moveLeft`,
`moveRight`, `undo` and `redo` returns at once and leaves the level, with its
grid, move log, cursor and player coordinates, exactly as it was. -/
theorem unvalidated_moves_noop (SIZE_T_MOD : Nat) (l : Level)
    (hu : l.m_IsLevelValid = false) :
    moveUp l = .done l ∧ moveDown l = .done l ∧ moveLeft l = .done l ∧
    moveRight l = .done l ∧ undo l = .done l ∧ redo SIZE_T_MOD l = .done l := by
  refine ⟨?_, ?_, ?_, ?_, ?_, ?_⟩
  · simp [moveUp, hu]
  · simp [moveDown, hu]
  · simp [moveLeft, hu]
  · simp [moveRight, hu]
  · simp [undo, hu]
  · simp [redo, hu]

/-- C10, witness: an unvalidated 1 by 3 grid, `size_t` of 64 bits. -/
theorem unvalidated_moves_noop_witness :
    moveUp { Level.new 5 6 with m_LevelArray := [['#', '@', '$']] } =
      .done { Level.new 5 6 with m_LevelArray := [['#', '@', '$']] } ∧
    redo 18446744073709551616 { Level.new 5 6 with m_LevelArray := [['#', '@', '$']] } =
      .done { Level.new 5 6 with m_LevelArray := [['#', '@', '$']] } :=
  ⟨(unvalidated_moves_noop 18446744073709551616
      { Level.new 5 6 with m_LevelArray := [['#', '@', '$']] } rfl).1,
   (unvalidated_moves_noop 18446744073709551616
      { Level.new 5 6 with m_LevelArray := [['#', '@', '$']] } rfl).2.2.2.2.2⟩

/-! ### Blocked moves (C11) -/

theorem movePlayer_letter (d : Direction) (l : Level) :
    movePlayer l d.letter =
      match at2 l.m_LevelArray (d.newX l) (d.newY l) with
      | none => none
      | some t =>
        if t = '#' then some (false, l)
        else if t = '$' ∨ t = '*' then
          match at2 l.m_LevelArray (step32 (d.newX l) l.m_PlayerX)
              (step32 (d.newY l) l.m_PlayerY) with
          | none => none
          | some n =>
            if n = '#' ∨ n = '$' ∨ n = '*' then some (false, l)
            else movePlayerCommit l d.letter true (d.newX l) (d.newY l)
              (step32 (d.newX l) l.m_PlayerX) (step32 (d.newY l) l.m_PlayerY)
        else movePlayerCommit l d.letter false (d.newX l) (d.newY l)
          (step32 (d.newX l) l.m_PlayerX) (step32 (d.newY l) l.m_PlayerY) := by
  cases d <;>
    simp only [movePlayer, Direction.letter, Direction.newX, Direction.newY,
      Char.reduceEq, if_true, if_false]

/-- Where the grid has the cell next to the cached player position, `movePlayer`
computes its coordinates without wrapping. -/
theorem target_coords (l : Level) (d : Direction) (hl : GridOK l) {t : Char}
    (ht : tileAhead l d 1 = some t) :
    d.cell l.m_PlayerX l.m_PlayerY 1 = some (d.newX l, d.newY l) ∧
    at2 l.m_LevelArray (d.newX l) (d.newY l) = some t ∧
    l.m_PlayerX < UINT32_MOD ∧ l.m_PlayerY < UINT32_MOD := by
  have hW := hl.2.1
  have hH := hl.2.2.1
  unfold tileAhead at ht
  cases d with
  | up =>
    simp only [Direction.cell] at ht ⊢
    split at ht
    · cases ht
    · next x y hc =>
      split at hc
      · next hk =>
        injection hc with hc
        injection hc with hx hy
        subst hx; subst hy
        have hr := hl.in_range ht
        have e : dec32 l.m_PlayerY = l.m_PlayerY - 1 := by
          unfold dec32 UINT32_MINUS_ONE UINT32_MOD
          unfold UINT32_MOD at hH
          omega
        simp only [Direction.newX, Direction.newY, e, hk, if_true, ht, true_and]
        unfold UINT32_MOD at hW hH ⊢
        omega
      · cases hc
  | down =>
    simp only [Direction.cell] at ht ⊢
    have hr := hl.in_range ht
    have e : inc32 l.m_PlayerY = l.m_PlayerY + 1 := by
      unfold inc32 UINT32_MOD
      unfold UINT32_MOD at hH
      omega
    simp only [Direction.newX, Direction.newY, e, ht, true_and]
    unfold UINT32_MOD at hW hH ⊢
    omega
  | left =>
    simp only [Direction.cell] at ht ⊢
    split at ht
    · cases ht
    · next x y hc =>
      split at hc
      · next hk =>
        injection hc with hc
        injection hc with hx hy
        subst hx; subst hy
        have hr := hl.in_range ht
        have e : dec32 l.m_PlayerX = l.m_PlayerX - 1 := by
          unfold dec32 UINT32_MINUS_ONE UINT32_MOD
          unfold UINT32_MOD at hW
          omega
        simp only [Direction.newX, Direction.newY, e, hk, if_true, ht, true_and]
        unfold UINT32_MOD at hW hH ⊢
        omega
      · cases hc
  | right =>
    simp only [Direction.cell] at ht ⊢
    have hr := hl.in_range ht
    have e : inc32 l.m_PlayerX = l.m_PlayerX + 1 := by
      unfold inc32 UINT32_MOD
      unfold UINT32_MOD at hW
      omega
    simp only [Direction.newX, Direction.newY, e, ht, true_and]
    unfold UINT32_MOD at hW hH ⊢
    omega

/-- Where the grid has the cell next to the cached player position and the cell
beyond it, `movePlayer` computes the coordinates of the latter without
wrapping. -/
theorem beyond_coords (l : Level) (d : Direction) (hl : GridOK l) {t n : Char}
    (ht : tileAhead l d 1 = some t) (hn : tileAhead l d 2 = some n) :
    d.cell l.m_PlayerX l.m_PlayerY 2 =
      some (step32 (d.newX l) l.m_PlayerX, step32 (d.newY l) l.m_PlayerY) ∧
    at2 l.m_LevelArray (step32 (d.newX l) l.m_PlayerX) (step32 (d.newY l) l.m_PlayerY)
      = some n := by
  have hW := hl.2.1
  have hH := hl.2.2.1
  obtain ⟨hc1, _, hpx, hpy⟩ := target_coords l d hl ht
  unfold tileAhead at hn
  cases d with
  | up =>
    simp only [Direction.cell, Direction.newX, Direction.newY] at hn hc1 ⊢
    split at hn
    · cases hn
    · next x y hc =>
      split at hc1
      · next hk1 =>
        split at hc
        · next hk =>
          injection hc with hc
          injection hc with hx hy
          subst hx; subst hy
          injection hc1 with hc1
          injection hc1 with _ hy1
          have hr := hl.in_range hn
          have e1 : step32 l.m_PlayerX l.m_PlayerX = l.m_PlayerX := by
            unfold step32 UINT32_MOD
            unfold UINT32_MOD at hpx
            omega
          have e2 : step32 (dec32 l.m_PlayerY) l.m_PlayerY = l.m_PlayerY - 2 := by
            rw [← hy1]
            unfold step32 UINT32_MOD
            unfold UINT32_MOD at hpy
            omega
          simp only [e1, e2, hk, if_true, hn, and_self]
        · cases hc
      · cases hc1
  | down =>
    simp only [Direction.cell, Direction.newX, Direction.newY] at hn hc1 ⊢
    injection hc1 with hc1
    injection hc1 with _ hy1
    have hr := hl.in_range hn
    have e1 : step32 l.m_PlayerX l.m_PlayerX = l.m_PlayerX := by
      unfold step32 UINT32_MOD
      unfold UINT32_MOD at hpx
      omega
    have e2 : step32 (inc32 l.m_PlayerY) l.m_PlayerY = l.m_PlayerY + 2 := by
      rw [← hy1]
      unfold step32 UINT32_MOD
      unfold UINT32_MOD at hpy hH
      omega
    simp only [e1, e2, hn, and_self]
  | left =>
    simp only [Direction.cell, Direction.newX, Direction.newY] at hn hc1 ⊢
    split at hn
    · cases hn
    · next x y hc =>
      split at hc1
      · next hk1 =>
        split at hc
        · next hk =>
          injection hc with hc
          injection hc with hx hy
          subst hx; subst hy
          injection hc1 with hc1
          injection hc1 with hx1 _
          have hr := hl.in_range hn
          have e1 : step32 l.m_PlayerY l.m_PlayerY = l.m_PlayerY := by
            unfold step32 UINT32_MOD
            unfold UINT32_MOD at hpy
            omega
          have e2 : step32 (dec32 l.m_PlayerX) l.m_PlayerX = l.m_PlayerX - 2 := by
            rw [← hx1]
            unfold step32 UINT32_MOD
            unfold UINT32_MOD at hpx
            omega
          simp only [e1, e2, hk, if_true, hn, and_self]
        · cases hc
      · cases hc1
  | right =>
    simp only [Direction.cell, Direction.newX, Direction.newY] at hn hc1 ⊢
    injection hc1 with hc1
    injection hc1 with hx1 _
    have hr := hl.in_range hn
    have e1 : step32 l.m_PlayerY l.m_PlayerY = l.m_PlayerY := by
      unfold step32 UINT32_MOD
      unfold UINT32_MOD at hpy
      omega
    have e2 : step32 (inc32 l.m_PlayerX) l.m_PlayerX = l.m_PlayerX + 2 := by
      rw [← hx1]
      unfold step32 UINT32_MOD
      unfold UINT32_MOD at hpx hW
      omega
    simp only [e1, e2, hn, and_self]

theorem move_eq (d : Direction) (l : Level) (hv : l.m_IsLevelValid = true) :
    move d l =
      match movePlayer l d.letter with
      | none => .undefined
      | some (false, l1) => .done l1
      | some (true, l1) => .done { l1 with m_PlayerX := d.newX l1, m_PlayerY := d.newY l1 } := by
  cases d <;> simp only [move, moveUp, moveDown, moveLeft, moveRight, hv, Direction.letter,
    Direction.newX, Direction.newY, Bool.not_true, Bool.false_eq_true, if_false]

/-- C11: on a well-formed, validated level, when the cell next to the cached
player position in the direction of the move holds a wall, or holds a box (`$`
or `*`) with a wall or a box (`#`, `$` or `*`) in the cell beyond it, the move
function returns normally and the level, with its grid, move log, cursor and
player coordinates, is exactly as before. -/
theorem blocked_move_noop (l : Level) (d : Direction) (hl : GridOK l)
    (hv : l.m_IsLevelValid = true)
    (hb : tileAhead l d 1 = some '#' ∨
      ((tileAhead l d 1 = some '$' ∨ tileAhead l d 1 = some '*') ∧
       (tileAhead l d 2 = some '#' ∨ tileAhead l d 2 = some '$' ∨
        tileAhead l d 2 = some '*'))) :
    move d l = .done l := by
  rw [move_eq d l hv, movePlayer_letter]
  rcases hb with hw | ⟨hbox, hbey⟩
  · obtain ⟨_, hat, _⟩ := target_coords l d hl hw
    simp [hat]
  · have key : ∀ t n : Char, tileAhead l d 1 = some t → (t = '$' ∨ t = '*') →
        tileAhead l d 2 = some n → (n = '#' ∨ n = '$' ∨ n = '*') →
        (match
          (match at2 l.m_LevelArray (d.newX l) (d.newY l) with
          | none => none
          | some t =>
            if t = '#' then some (false, l)
            else if t = '$' ∨ t = '*' then
              match at2 l.m_LevelArray (step32 (d.newX l) l.m_PlayerX)
                  (step32 (d.newY l) l.m_PlayerY) with
              | none => none
              | some n =>
                if n = '#' ∨ n = '$' ∨ n = '*' then some (false, l)
                else movePlayerCommit l d.letter true (d.newX l) (d.newY l)
                  (step32 (d.newX l) l.m_PlayerX) (step32 (d.newY l) l.m_PlayerY)
            else movePlayerCommit l d.letter false (d.newX l) (d.newY l)
              (step32 (d.newX l) l.m_PlayerX) (step32 (d.newY l) l.m_PlayerY)) with
        | none => Outcome.undefined
        | some (false, l1) => .done l1
        | some (true, l1) =>
          .done { l1 with m_PlayerX := d.newX l1, m_PlayerY := d.newY l1 }) = .done l := by
      intro t n ht hbox hn hbey
      obtain ⟨_, hat, _⟩ := target_coords l d hl ht
      obtain ⟨_, hat2⟩ := beyond_coords l d hl ht hn
      have hne : t ≠ '#' := by rcases hbox with rfl | rfl <;> decide
      simp [hat, hat2, hne, hbox, hbey]
    rcases hbox with h1 | h1 <;> rcases hbey with h2 | h2 | h2
    · exact key _ _ h1 (Or.inl rfl) h2 (Or.inl rfl)
    · exact key _ _ h1 (Or.inl rfl) h2 (Or.inr (Or.inl rfl))
    · exact key _ _ h1 (Or.inl rfl) h2 (Or.inr (Or.inr rfl))
    · exact key _ _ h1 (Or.inr rfl) h2 (Or.inl rfl)
    · exact key _ _ h1 (Or.inr rfl) h2 (Or.inr (Or.inl rfl))
    · exact key _ _ h1 (Or.inr rfl) h2 (Or.inr (Or.inr rfl))

/-- C11, witness: on the validated grid `@$#` the move to the right is blocked. -/
theorem blocked_move_noop_witness :
    GridOK (Level.play [['@'], ['$'], ['#']] 0 0 [] UINT32_MINUS_ONE) ∧
    moveRight (Level.play [['@'], ['$'], ['#']] 0 0 [] UINT32_MINUS_ONE) =
      .done (Level.play [['@'], ['$'], ['#']] 0 0 [] UINT32_MINUS_ONE) :=
  ⟨by decide,
   blocked_move_noop (Level.play [['@'], ['$'], ['#']] 0 0 [] UINT32_MINUS_ONE) .right
    (by decide) rfl (by decide)⟩

/-! ### Pushing a box, where the truncation loop ends -/

theorem modify2_spec {a : List (List Char)} {W H x y : Nat} {t : Char}
    (hg : IsGrid a W H) (ht : at2 a x y = some t) (f : Char → Char) :
    ∃ a1, modify2 a x y f = some a1 ∧ IsGrid a1 W H ∧
      ∀ i j, at2 a1 i j = if i = x ∧ j = y then some (f t) else at2 a i j := by
  have hin : x < W ∧ y < H := by
    by_contra hc
    rw [hg.at2_none hc] at ht
    cases ht
  obtain ⟨a1, hs, hg1, hat⟩ := hg.set2 hin.1 hin.2 (f t)
  exact ⟨a1, by simp only [modify2, ht, hs], hg1, hat⟩

theorem truncateLoop_eq (index : Nat) :
    ∀ (fuel : Nat) (log : List Char), index ≤ log.length → log.length - index ≤ fuel →
    truncateLoop index fuel log = some (log.take index) := by
  intro fuel
  induction fuel with
  | zero =>
    intro log h1 h2
    have e : log.length = index := by omega
    simp only [truncateLoop, e, ne_eq, not_true_eq_false, if_false]
    rw [← e, List.take_length]
  | succ fuel ih =>
    intro log h1 h2
    unfold truncateLoop
    by_cases e : log.length = index
    · simp only [e, ne_eq, not_true_eq_false, if_false]
      rw [← e, List.take_length]
    · simp only [ne_eq, e, not_false_eq_true, if_true]
      have hlen : log.dropLast.length = log.length - 1 := List.length_dropLast log
      rw [ih log.dropLast (by omega) (by omega), List.dropLast_eq_take, List.take_take]
      congr 2
      omega

/-- The log that `movePlayer` appends to, when the truncation loop ends. -/
theorem truncate_logOK (l : Level) (h : LogOK l) :
    (if l.m_UndoDataIndex ≠ UINT32_MINUS_ONE then
      truncateLoop l.m_UndoDataIndex l.m_UndoData.length l.m_UndoData
    else some l.m_UndoData) =
    some (if l.m_UndoDataIndex = UINT32_MINUS_ONE then l.m_UndoData
      else l.m_UndoData.take l.m_UndoDataIndex) := by
  by_cases e : l.m_UndoDataIndex = UINT32_MINUS_ONE
  · simp only [e, ne_eq, not_true_eq_false, if_false, if_true]
  · simp only [ne_eq, e, not_false_eq_true, if_true, if_false]
    rcases h with h | h
    · exact (e h).elim
    · exact truncateLoop_eq _ _ _ h (by omega)

/-- What the second half of `movePlayer` does on a `W` by `H` grid that has the
target cell, the player's cell and, for a push, the cell beyond. -/
theorem movePlayerCommit_spec (l : Level) (c : Char) (b : Bool) (tx ty nx ny : Nat)
    {W H : Nat} {t p : Char} (n : Char)
    (hg : IsGrid l.m_LevelArray W H) (hlog : LogOK l)
    (hT : at2 l.m_LevelArray tx ty = some t)
    (hP : at2 l.m_LevelArray l.m_PlayerX l.m_PlayerY = some p)
    (hTP : ¬ (tx = l.m_PlayerX ∧ ty = l.m_PlayerY))
    (hB : b = true → at2 l.m_LevelArray nx ny = some n ∧ ¬ (nx = tx ∧ ny = ty) ∧
      ¬ (nx = l.m_PlayerX ∧ ny = l.m_PlayerY)) :
    ∃ a3, movePlayerCommit l c b tx ty nx ny = some (true, { l with
        m_LevelArray := a3
        m_UndoData := (if l.m_UndoDataIndex = UINT32_MINUS_ONE then l.m_UndoData
          else l.m_UndoData.take l.m_UndoDataIndex) ++ [if b then charSub32 c else c]
        m_UndoDataIndex := inc32 l.m_UndoDataIndex }) ∧
      IsGrid a3 W H ∧
      ∀ i j, at2 a3 i j =
        if i = l.m_PlayerX ∧ j = l.m_PlayerY then some (if p = '@' then ' ' else '+')
        else if i = tx ∧ j = ty then
          some (if (if b then (if t = '$' then ' ' else '.') else t) = ' ' then '@' else '+')
        else if b = true ∧ i = nx ∧ j = ny then some (if n = '.' then '*' else '$')
        else at2 l.m_LevelArray i j := by
  have hlg := truncate_logOK l hlog
  cases b with
  | false =>
    obtain ⟨a2, h2, hg2, hat2⟩ := modify2_spec hg hT (fun t => if t = ' ' then '@' else '+')
    have hP2 : at2 a2 l.m_PlayerX l.m_PlayerY = some p := by
      rw [hat2, if_neg (fun hc => hTP ⟨hc.1.symm, hc.2.symm⟩), hP]
    obtain ⟨a3, h3, hg3, hat3⟩ := modify2_spec hg2 hP2 (fun t => if t = '@' then ' ' else '+')
    refine ⟨a3, ?_, hg3, ?_⟩
    · unfold movePlayerCommit
      simp only [Bool.false_eq_true, if_false, Option.bind_eq_bind, Option.some_bind, bind,
        h2, h3]
      by_cases e : l.m_UndoDataIndex = UINT32_MINUS_ONE
      · simp only [e, ne_eq, not_true_eq_false, if_false, if_true]
      · simp only [e, ne_eq, not_false_eq_true, if_true, if_false] at hlg ⊢
        rw [hlg]
        rfl
    · intro i j
      rw [hat3 i j, hat2 i j]
      simp only [Bool.false_eq_true, if_false, false_and]
  | true =>
    obtain ⟨hB1, hBT, hBP⟩ := hB rfl
    obtain ⟨a1, h1, hg1, hat1⟩ := modify2_spec hg hT (fun t => if t = '$' then ' ' else '.')
    have hB2 : at2 a1 nx ny = some n := by rw [hat1, if_neg hBT, hB1]
    obtain ⟨a1b, h1b, hg1b, hat1b⟩ := modify2_spec hg1 hB2
      (fun t => if t = '.' then '*' else '$')
    have hT2 : at2 a1b tx ty = some (if t = '$' then ' ' else '.') := by
      rw [hat1b, if_neg (fun hc => hBT ⟨hc.1.symm, hc.2.symm⟩), hat1]
      simp
    obtain ⟨a2, h2, hg2, hat2⟩ := modify2_spec hg1b hT2 (fun t => if t = ' ' then '@' else '+')
    have hP2 : at2 a2 l.m_PlayerX l.m_PlayerY = some p := by
      rw [hat2, if_neg (fun hc => hTP ⟨hc.1.symm, hc.2.symm⟩), hat1b,
        if_neg (fun hc => hBP ⟨hc.1.symm, hc.2.symm⟩), hat1,
        if_neg (fun hc => hTP ⟨hc.1.symm, hc.2.symm⟩), hP]
    obtain ⟨a3, h3, hg3, hat3⟩ := modify2_spec hg2 hP2 (fun t => if t = '@' then ' ' else '+')
    refine ⟨a3, ?_, hg3, ?_⟩
    · unfold movePlayerCommit
      simp only [if_true, Option.bind_eq_bind, Option.some_bind, bind, h1, h1b, h2, h3]
      by_cases e : l.m_UndoDataIndex = UINT32_MINUS_ONE
      · simp only [e, ne_eq, not_true_eq_false, if_false, if_true]
      · simp only [e, ne_eq, not_false_eq_true, if_true, if_false] at hlg ⊢
        rw [hlg]
        rfl
    · intro i j
      rw [hat3 i j, hat2 i j, hat1b i j, hat1 i j]
      by_cases hp : i = l.m_PlayerX ∧ j = l.m_PlayerY
      · simp only [hp, and_self, if_true]
      · by_cases ht : i = tx ∧ j = ty
        · simp only [hp, ht, and_self, if_true, if_false]
        · by_cases hb : i = nx ∧ j = ny
          · simp only [hp, ht, hb, and_self, if_true, if_false]
          · simp only [hp, ht, hb, if_false, and_false, true_and]

theorem cells_distinct (d : Direction) (x y tx ty nx ny : Nat)
    (h1 : d.cell x y 1 = some (tx, ty)) (h2 : d.cell x y 2 = some (nx, ny)) :
    ¬ (tx = x ∧ ty = y) ∧ ¬ (nx = tx ∧ ny = ty) ∧ ¬ (nx = x ∧ ny = y) := by
  cases d <;> simp only [Direction.cell] at h1 h2
  · split at h1 <;> split at h2 <;> simp only [Option.some.injEq, Prod.mk.injEq,
      reduceCtorEq] at h1 h2
    omega
  · simp only [Option.some.injEq, Prod.mk.injEq] at h1 h2
    omega
  · split at h1 <;> split at h2 <;> simp only [Option.some.injEq, Prod.mk.injEq,
      reduceCtorEq] at h1 h2
    omega
  · simp only [Option.some.injEq, Prod.mk.injEq] at h1 h2
    omega

theorem newX_frame (d : Direction) (l l1 : Level) (hx : l1.m_PlayerX = l.m_PlayerX)
    (hy : l1.m_PlayerY = l.m_PlayerY) : d.newX l1 = d.newX l ∧ d.newY l1 = d.newY l := by
  cases d <;> simp only [Direction.newX, Direction.newY, hx, hy, and_self]

/-- A push on a level whose log lets the truncation loop end (the cursor is the
sentinel or at most the length of the log, which a `redo` does not keep). On a
well-formed, validated level of that kind whose cached player position is a cell
of the grid, when the cell next
to that position in the direction of the move (target) holds a box and the cell
beyond holds floor (` ` or `_`) or a goal, the move function returns normally;
afterwards beyond holds `*` if it held `.` and `$` otherwise, target holds `+` if
it held `*` and `@` if it held `$`, and the cached player coordinates are those
of target. -/
theorem push_move (l : Level) (d : Direction) (t n p : Char) (hl : GridOK l)
    (hv : l.m_IsLevelValid = true) (hlog : LogOK l)
    (hp : at2 l.m_LevelArray l.m_PlayerX l.m_PlayerY = some p)
    (ht : tileAhead l d 1 = some t) (hbox : t = '$' ∨ t = '*')
    (hn : tileAhead l d 2 = some n) (hfree : n = ' ' ∨ n = '_' ∨ n = '.') :
    ∃ l1 tx ty nx ny, move d l = .done l1 ∧
      d.cell l.m_PlayerX l.m_PlayerY 1 = some (tx, ty) ∧
      d.cell l.m_PlayerX l.m_PlayerY 2 = some (nx, ny) ∧
      at2 l1.m_LevelArray nx ny = some (if n = '.' then '*' else '$') ∧
      at2 l1.m_LevelArray tx ty = some (if t = '*' then '+' else '@') ∧
      l1.m_PlayerX = tx ∧ l1.m_PlayerY = ty := by
  obtain ⟨hc1, hat, _, _⟩ := target_coords l d hl ht
  obtain ⟨hc2, hat2⟩ := beyond_coords l d hl ht hn
  obtain ⟨hTP, hBT, hBP⟩ := cells_distinct d _ _ _ _ _ _ hc1 hc2
  obtain ⟨a3, hcommit, _, hcells⟩ := movePlayerCommit_spec l d.letter true (d.newX l)
    (d.newY l) (step32 (d.newX l) l.m_PlayerX) (step32 (d.newY l) l.m_PlayerY) n
    hl.isGrid hlog hat hp hTP (fun _ => ⟨hat2, hBT, hBP⟩)
  have hne : t ≠ '#' := by rcases hbox with rfl | rfl <;> decide
  have hnn : ¬ (n = '#' ∨ n = '$' ∨ n = '*') := by
    rcases hfree with rfl | rfl | rfl <;> decide
  obtain ⟨lc, hlc, hlx, hly, hla⟩ : ∃ lc : Level,
      movePlayerCommit l d.letter true (d.newX l) (d.newY l)
        (step32 (d.newX l) l.m_PlayerX) (step32 (d.newY l) l.m_PlayerY) = some (true, lc) ∧
      lc.m_PlayerX = l.m_PlayerX ∧ lc.m_PlayerY = l.m_PlayerY ∧ lc.m_LevelArray = a3 :=
    ⟨_, hcommit, rfl, rfl, rfl⟩
  have hfr := newX_frame d l lc hlx hly
  refine ⟨{ lc with m_PlayerX := d.newX lc, m_PlayerY := d.newY lc }, d.newX l, d.newY l,
    step32 (d.newX l) l.m_PlayerX, step32 (d.newY l) l.m_PlayerY, ?_, hc1, hc2, ?_, ?_,
    hfr.1, hfr.2⟩
  · rw [move_eq d l hv, movePlayer_letter]
    simp only [hat, hat2, hne, hbox, hnn, if_true, if_false, hlc]
  · show at2 lc.m_LevelArray _ _ = _
    rw [hla, hcells, if_neg hBP, if_neg hBT]
    simp
  · show at2 lc.m_LevelArray _ _ = _
    rw [hla, hcells, if_neg hTP]
    rcases hbox with rfl | rfl <;> simp

/-- The example of a push: on the validated 3 by 1 grid `@$.` the move to the right gives
the grid ` @*`, with the record `R` in the log and the player at column 1. -/
theorem push_move_witness :
    moveRight (Level.play [['@'], ['$'], ['.']] 0 0 [] UINT32_MINUS_ONE) =
      .done (Level.play [[' '], ['@'], ['*']] 1 0 ['R'] 0) ∧
    ∃ l1 tx ty nx ny,
      move .right (Level.play [['@'], ['$'], ['.']] 0 0 [] UINT32_MINUS_ONE) = .done l1 ∧
      Direction.right.cell 0 0 1 = some (tx, ty) ∧
      Direction.right.cell 0 0 2 = some (nx, ny) ∧
      at2 l1.m_LevelArray nx ny = some (if '.' = '.' then '*' else '$') ∧
      at2 l1.m_LevelArray tx ty = some (if '$' = '*' then '+' else '@') ∧
      l1.m_PlayerX = tx ∧ l1.m_PlayerY = ty :=
  ⟨by decide,
   push_move (Level.play [['@'], ['$'], ['.']] 0 0 [] UINT32_MINUS_ONE) .right '$' '.' '@'
    (by decide) rfl (by decide) (by decide) (by decide) (by decide) (by decide) (by decide)⟩

/-! ### Moves onto and off tiles, and `undo` (C13, C14, C15) -/

/-- A move that is neither blocked nor a push, on a well-formed, validated level
whose log lets the truncation loop end and whose cached player position is a
cell of the grid: the target cell gets `@` if it held ` ` and `+` if it held
anything else; the cell the player leaves gets ` ` if it held `@` and `+` if it
held anything else; every other cell keeps its tile; the letter of the
direction is appended to the log, after the records the truncation loop keeps;
the cursor is incremented and the cached coordinates become those of the
target. -/
theorem plain_move (l : Level) (d : Direction) (t p : Char) (hl : GridOK l)
    (hv : l.m_IsLevelValid = true) (hlog : LogOK l)
    (hp : at2 l.m_LevelArray l.m_PlayerX l.m_PlayerY = some p)
    (ht : tileAhead l d 1 = some t) (hfree : t ≠ '#' ∧ t ≠ '$' ∧ t ≠ '*') :
    ∃ l1 tx ty, move d l = .done l1 ∧
      d.cell l.m_PlayerX l.m_PlayerY 1 = some (tx, ty) ∧
      l1.m_PlayerX = tx ∧ l1.m_PlayerY = ty ∧
      l1.m_UndoData = (if l.m_UndoDataIndex = UINT32_MINUS_ONE then l.m_UndoData
        else l.m_UndoData.take l.m_UndoDataIndex) ++ [d.letter] ∧
      l1.m_UndoDataIndex = inc32 l.m_UndoDataIndex ∧
      ∀ i j, at2 l1.m_LevelArray i j =
        if i = l.m_PlayerX ∧ j = l.m_PlayerY then some (if p = '@' then ' ' else '+')
        else if i = tx ∧ j = ty then some (if t = ' ' then '@' else '+')
        else at2 l.m_LevelArray i j := by
  obtain ⟨hc1, hat, _, _⟩ := target_coords l d hl ht
  have hTP : ¬ (d.newX l = l.m_PlayerX ∧ d.newY l = l.m_PlayerY) := by
    cases d <;> simp only [Direction.cell] at hc1
    · split at hc1 <;> simp only [Option.some.injEq, Prod.mk.injEq, reduceCtorEq] at hc1
      omega
    · simp only [Option.some.injEq, Prod.mk.injEq] at hc1
      omega
    · split at hc1 <;> simp only [Option.some.injEq, Prod.mk.injEq, reduceCtorEq] at hc1
      omega
    · simp only [Option.some.injEq, Prod.mk.injEq] at hc1
      omega
  obtain ⟨a3, hcommit, _, hcells⟩ := movePlayerCommit_spec l d.letter false (d.newX l)
    (d.newY l) (step32 (d.newX l) l.m_PlayerX) (step32 (d.newY l) l.m_PlayerY) ' '
    hl.isGrid hlog hat hp hTP (fun hc => by cases hc)
  obtain ⟨lc, hlc, hlx, hly, hla, hlu, hli⟩ : ∃ lc : Level,
      movePlayerCommit l d.letter false (d.newX l) (d.newY l)
        (step32 (d.newX l) l.m_PlayerX) (step32 (d.newY l) l.m_PlayerY) = some (true, lc) ∧
      lc.m_PlayerX = l.m_PlayerX ∧ lc.m_PlayerY = l.m_PlayerY ∧ lc.m_LevelArray = a3 ∧
      lc.m_UndoData = (if l.m_UndoDataIndex = UINT32_MINUS_ONE then l.m_UndoData
        else l.m_UndoData.take l.m_UndoDataIndex) ++ [d.letter] ∧
      lc.m_UndoDataIndex = inc32 l.m_UndoDataIndex :=
    ⟨_, hcommit, rfl, rfl, rfl, by simp, rfl⟩
  have hfr := newX_frame d l lc hlx hly
  have hbox : ¬ (t = '$' ∨ t = '*') := fun hc => hc.elim hfree.2.1 hfree.2.2
  refine ⟨{ lc with m_PlayerX := d.newX lc, m_PlayerY := d.newY lc }, d.newX l, d.newY l,
    ?_, hc1, hfr.1, hfr.2, hlu, hli, ?_⟩
  · rw [move_eq d l hv, movePlayer_letter]
    simp only [hat, hfree.1, hbox, if_false, hlc]
  · intro i j
    show at2 lc.m_LevelArray i j = _
    rw [hla, hcells]
    simp

/-- C13, the code on the floor tile `_`: on the validated grid `@_` (built by
`insertTileLine` and `validateLevel`) the move to the right returns normally and
the cell the player moves into holds `+`, not `@`. -/
theorem move_onto_underscore_gives_plus :
    insertTileLine (Level.new 0 0) 0 "@_" =
      .done { Level.new 0 0 with m_LevelArray := [['@'], ['_']] } ∧
    validateLevel { Level.new 0 0 with m_LevelArray := [['@'], ['_']] } =
      some (true, Level.play [['@'], ['_']] 0 0 [] UINT32_MINUS_ONE) ∧
    moveRight (Level.play [['@'], ['_']] 0 0 [] UINT32_MINUS_ONE) =
      .done (Level.play [[' '], ['+']] 1 0 ['r'] 0) := by
  decide

/-- C14, the code when the player leaves a goal: on the validated grid `@. ` the
first move to the right puts the player on the goal (` + `), the second returns
normally with the grid ` +@`: the cell the player has left still holds `+`, not
`.`, and the grid holds two player tiles. -/
theorem move_off_goal_leaves_plus :
    insertTileLine (Level.new 0 0) 0 "@. " =
      .done { Level.new 0 0 with m_LevelArray := [['@'], ['.'], [' ']] } ∧
    validateLevel { Level.new 0 0 with m_LevelArray := [['@'], ['.'], [' ']] } =
      some (true, Level.play [['@'], ['.'], [' ']] 0 0 [] UINT32_MINUS_ONE) ∧
    moveRight (Level.play [['@'], ['.'], [' ']] 0 0 [] UINT32_MINUS_ONE) =
      .done (Level.play [[' '], ['+'], [' ']] 1 0 ['r'] 0) ∧
    moveRight (Level.play [[' '], ['+'], [' ']] 1 0 ['r'] 0) =
      .done (Level.play [[' '], ['+'], ['@']] 2 0 ['r'] 1) := by
  decide

/-- C15, the code on the example of the specification and on two more inputs:
on the validated grid `@$.` the move to the right gives ` @*`, and the `undo`
after it reads `m_LevelArray[4294967295][0]`, outside the array; on `#@$.#` the
move gives `# @*#` and the `undo` returns with the grid `.* *#`, not `#@$.#`;
after two moves on `@  ` the `undo` throws `std::out_of_range`. -/
theorem undo_does_not_restore :
    moveRight (Level.play [['@'], ['$'], ['.']] 0 0 [] UINT32_MINUS_ONE) =
      .done (Level.play [[' '], ['@'], ['*']] 1 0 ['R'] 0) ∧
    undo (Level.play [[' '], ['@'], ['*']] 1 0 ['R'] 0) = .undefined ∧
    moveRight (Level.play [['#'], ['@'], ['$'], ['.'], ['#']] 1 0 [] UINT32_MINUS_ONE) =
      .done (Level.play [['#'], [' '], ['@'], ['*'], ['#']] 2 0 ['R'] 0) ∧
    undo (Level.play [['#'], [' '], ['@'], ['*'], ['#']] 2 0 ['R'] 0) =
      .done (Level.play [['.'], ['*'], [' '], ['*'], ['#']] 2 0 ['R'] UINT32_MINUS_ONE) ∧
    moveRight (Level.play [['@'], [' '], [' ']] 0 0 [] UINT32_MINUS_ONE) =
      .done (Level.play [[' '], ['@'], [' ']] 1 0 ['r'] 0) ∧
    moveRight (Level.play [[' '], ['@'], [' ']] 1 0 ['r'] 0) =
      .done (Level.play [[' '], [' '], ['@']] 2 0 ['r'] 1) ∧
    undo (Level.play [[' '], [' '], ['@']] 2 0 ['r'] 1) =
      .threw .outOfRange (Level.play [[' '], [' '], ['@']] 2 0 ['r'] 1) := by
  decide

/-! ### The move log, `redo` and player tiles on goals (C16 to C20) -/

/-- C16, the code after an undone move: on the validated grid `@   ` a move to
the right, an `undo` and a second move to the right leave the log `rr` with the
cursor 0: the undone record is still there and the cursor is on it, not on the
new record. The `redo` after that is no no-op, with `size_t` of 32 bits or of 64:
it moves the player, rewrites the log and sets the cursor to 2. -/
theorem new_move_keeps_undone_record :
    moveRight (Level.play [['@'], [' '], [' '], [' ']] 0 0 [] UINT32_MINUS_ONE) =
      .done (Level.play [[' '], ['@'], [' '], [' ']] 1 0 ['r'] 0) ∧
    undo (Level.play [[' '], ['@'], [' '], [' ']] 1 0 ['r'] 0) =
      .done (Level.play [['@'], [' '], [' '], [' ']] 1 0 ['r'] UINT32_MINUS_ONE) ∧
    moveRight (Level.play [['@'], [' '], [' '], [' ']] 1 0 ['r'] UINT32_MINUS_ONE) =
      .done (Level.play [['@'], ['+'], ['@'], [' ']] 2 0 ['r', 'r'] 0) ∧
    redo 4294967296 (Level.play [['@'], ['+'], ['@'], [' ']] 2 0 ['r', 'r'] 0) =
      .done (Level.play [['@'], ['+'], [' '], ['@']] 2 0 ['r'] 2) ∧
    redo 18446744073709551616 (Level.play [['@'], ['+'], ['@'], [' ']] 2 0 ['r', 'r'] 0) =
      .done (Level.play [['@'], ['+'], [' '], ['@']] 2 0 ['r'] 2) := by
  decide

/-- C17, the code on `undo` followed by `redo`: on the validated grid `@ ` the
move to the right gives ` @`, the `undo` gives back `@ ` (with the cached player
column still 1), and the `redo`, reading the log at the cursor 4294967295, throws
`std::out_of_range` with `size_t` of 32 bits or of 64; the grid stays `@ `. -/
theorem redo_after_undo_throws :
    moveRight (Level.play [['@'], [' ']] 0 0 [] UINT32_MINUS_ONE) =
      .done (Level.play [[' '], ['@']] 1 0 ['r'] 0) ∧
    undo (Level.play [[' '], ['@']] 1 0 ['r'] 0) =
      .done (Level.play [['@'], [' ']] 1 0 ['r'] UINT32_MINUS_ONE) ∧
    redo 4294967296 (Level.play [['@'], [' ']] 1 0 ['r'] UINT32_MINUS_ONE) =
      .threw .outOfRange (Level.play [['@'], [' ']] 1 0 ['r'] UINT32_MINUS_ONE) ∧
    redo 18446744073709551616 (Level.play [['@'], [' ']] 1 0 ['r'] UINT32_MINUS_ONE) =
      .threw .outOfRange (Level.play [['@'], [' ']] 1 0 ['r'] UINT32_MINUS_ONE) := by
  decide

/-- Where `undo` and `redo` are no-ops on a validated level: `undo` when the
cursor is the sentinel before the first record; `redo` when the log is not empty
(and not longer than `size_t` counts) and the cursor is its last index; with
`size_t` of 32 bits `redo` also on an empty log with the sentinel cursor. -/
theorem undo_redo_at_bounds (SIZE_T_MOD : Nat) (l : Level) (hv : l.m_IsLevelValid = true) :
    (l.m_UndoDataIndex = UINT32_MINUS_ONE → undo l = .done l) ∧
    (l.m_UndoData ≠ [] → l.m_UndoData.length ≤ SIZE_T_MOD →
      l.m_UndoDataIndex = l.m_UndoData.length - 1 → redo SIZE_T_MOD l = .done l) ∧
    (l.m_UndoData = [] → l.m_UndoDataIndex = UINT32_MINUS_ONE →
      redo UINT32_MOD l = .done l) := by
  refine ⟨?_, ?_, ?_⟩
  · intro h
    simp [undo, hv, h]
  · intro hne hlen h
    have hpos : 0 < l.m_UndoData.length := List.length_pos.mpr hne
    have e : (l.m_UndoData.length + SIZE_T_MOD - 1) % SIZE_T_MOD = l.m_UndoData.length - 1 := by
      have e1 : l.m_UndoData.length + SIZE_T_MOD - 1 =
          (l.m_UndoData.length - 1) + SIZE_T_MOD := by omega
      rw [e1, Nat.add_mod_right]
      exact Nat.mod_eq_of_lt (by omega)
    simp [redo, hv, h, e]
  · intro hlog h
    simp [redo, hv, h, hlog, UINT32_MOD, UINT32_MINUS_ONE]

/-- C18, the code on a freshly validated level with `size_t` of 64 bits: the log
is empty and the cursor is 4294967295, `m_UndoData.size()-1` is 2^64-1, so `redo`
goes on to `m_UndoData.at( 4294967295 )` and throws `std::out_of_range`. -/
theorem redo_on_fresh_level_throws :
    insertTileLine (Level.new 0 0) 0 "@ " =
      .done { Level.new 0 0 with m_LevelArray := [['@'], [' ']] } ∧
    validateLevel { Level.new 0 0 with m_LevelArray := [['@'], [' ']] } =
      some (true, Level.play [['@'], [' ']] 0 0 [] UINT32_MINUS_ONE) ∧
    redo 18446744073709551616 (Level.play [['@'], [' ']] 0 0 [] UINT32_MINUS_ONE) =
      .threw .outOfRange (Level.play [['@'], [' ']] 0 0 [] UINT32_MINUS_ONE) := by
  decide

/-- C19, the code after two and after three moves: on the validated grid `@   `
the second move to the right pops the record of the first before it appends its
own, so the log holds one record and the cursor is 1; after the third move the
log holds two records and the cursor is 2. -/
theorem second_move_drops_first_record :
    moveRight (Level.play [['@'], [' '], [' '], [' ']] 0 0 [] UINT32_MINUS_ONE) =
      .done (Level.play [[' '], ['@'], [' '], [' ']] 1 0 ['r'] 0) ∧
    moveRight (Level.play [[' '], ['@'], [' '], [' ']] 1 0 ['r'] 0) =
      .done (Level.play [[' '], [' '], ['@'], [' ']] 2 0 ['r'] 1) ∧
    moveRight (Level.play [[' '], [' '], ['@'], [' ']] 2 0 ['r'] 1) =
      .done (Level.play [[' '], [' '], [' '], ['@']] 3 0 ['r', 'r'] 2) := by
  decide

/-- C20, the code on a grid with one `@` and one `+`: after `insertTileLine(0,
"@+")` on a fresh level `validateLevel` returns true and sets `m_IsLevelValid`;
the scan compares every tile with `@` only. -/
theorem validateLevel_ignores_plus :
    insertTileLine (Level.new 0 0) 0 "@+" =
      .done { Level.new 0 0 with m_LevelArray := [['@'], ['+']] } ∧
    validateLevel { Level.new 0 0 with m_LevelArray := [['@'], ['+']] } =
      some (true, Level.play [['@'], ['+']] 0 0 [] UINT32_MINUS_ONE) := by
  decide

/-! ### Counting boxes -/

theorem countP_set_cell (q : Char → Bool) (col : List Char) :
    ∀ (y : Nat) (t c : Char), col[y]? = some t →
    (col.set y c).countP q + (if q t then 1 else 0) =
      col.countP q + (if q c then 1 else 0) := by
  induction col with
  | nil => intro y t c h; simp at h
  | cons e rest ih =>
    intro y t c h
    cases y with
    | zero =>
      simp only [List.getElem?_cons_zero, Option.some.injEq] at h
      subst h
      simp only [List.set_cons_zero, List.countP_cons]
      omega
    | succ y =>
      simp only [List.getElem?_cons_succ] at h
      have := ih y t c h
      simp only [List.set_cons_succ, List.countP_cons]
      omega

theorem sum_map_set_col (g : List Char → Nat) (a : List (List Char)) :
    ∀ (x : Nat) (col col1 : List Char), a[x]? = some col →
    ((a.set x col1).map g).sum + g col = (a.map g).sum + g col1 := by
  induction a with
  | nil => intro x col col1 h; simp at h
  | cons e rest ih =>
    intro x col col1 h
    cases x with
    | zero =>
      simp only [List.getElem?_cons_zero, Option.some.injEq] at h
      subst h
      simp only [List.set_cons_zero, List.map_cons, List.sum_cons]
      omega
    | succ x =>
      simp only [List.getElem?_cons_succ] at h
      have := ih x col col1 h
      simp only [List.set_cons_succ, List.map_cons, List.sum_cons]
      omega

/-- One guarded write changes the number of boxes by what it writes less what it
overwrites. -/
theorem modify2_count {a a1 : List (List Char)} {x y : Nat} {t : Char} (f : Char → Char)
    (ht : at2 a x y = some t) (h : modify2 a x y f = some a1) :
    boxCount a1 + (if isBox t then 1 else 0) =
      boxCount a + (if isBox (f t) then 1 else 0) := by
  unfold modify2 at h
  rw [ht] at h
  simp only at h
  unfold at2 at ht
  unfold set2 at h
  cases hc : a[x]? with
  | none => rw [hc] at ht; cases ht
  | some col =>
    rw [hc] at ht h
    simp only at ht h
    split at h
    · injection h with h
      subst h
      have h1 := countP_set_cell isBox col y t (f t) ht
      have h2 := sum_map_set_col (fun col => col.countP isBox) a x col (col.set y (f t)) hc
      unfold boxCount
      simp only at h2
      omega
    · cases h

/-- The grid that the second half of `movePlayer` leaves is the result of its
guarded writes, in their order. -/
theorem movePlayerCommit_grid (l l1 : Level) (c : Char) (b r : Bool) (tx ty nx ny : Nat)
    (h : movePlayerCommit l c b tx ty nx ny = some (r, l1)) :
    ∃ a1 a2,
      (if b then
        (modify2 l.m_LevelArray tx ty (fun t => if t = '$' then ' ' else '.')).bind
          (fun a => modify2 a nx ny (fun t => if t = '.' then '*' else '$'))
       else some l.m_LevelArray) = some a1 ∧
      modify2 a1 tx ty (fun t => if t = ' ' then '@' else '+') = some a2 ∧
      modify2 a2 l.m_PlayerX l.m_PlayerY (fun t => if t = '@' then ' ' else '+')
        = some l1.m_LevelArray := by
  unfold movePlayerCommit at h
  cases b with
  | false =>
    simp only [Bool.false_eq_true, if_false, Option.bind_eq_bind, bind, Option.some_bind,
      Option.bind_eq_some] at h ⊢
    obtain ⟨a2, hB, a3, hC, hrest⟩ := h
    refine ⟨l.m_LevelArray, a2, rfl, hB, ?_⟩
    rw [hC]
    split at hrest
    · cases hD : truncateLoop l.m_UndoDataIndex l.m_UndoData.length l.m_UndoData with
      | none => rw [hD] at hrest; cases hrest
      | some log =>
        rw [hD] at hrest
        have h2 : (true, { l with
            m_LevelArray := a3
            m_UndoData := log ++ [if false then charSub32 c else c]
            m_UndoDataIndex := inc32 l.m_UndoDataIndex }) = (r, l1) :=
          Option.some.inj hrest
        rw [← (Prod.mk.inj h2).2]
    · simp only [Option.some.injEq, Prod.mk.injEq] at hrest
      rw [← hrest.2]
  | true =>
    simp only [if_true, Option.bind_eq_bind, bind, Option.some_bind,
      Option.bind_eq_some] at h ⊢
    obtain ⟨a1, ⟨a0, hA0, hA1⟩, a2, hB, a3, hC, hrest⟩ := h
    refine ⟨a1, a2, ⟨a0, hA0, hA1⟩, hB, ?_⟩
    rw [hC]
    split at hrest
    · cases hD : truncateLoop l.m_UndoDataIndex l.m_UndoData.length l.m_UndoData with
      | none => rw [hD] at hrest; cases hrest
      | some log =>
        rw [hD] at hrest
        have h2 : (true, { l with
            m_LevelArray := a3
            m_UndoData := log ++ [if true then charSub32 c else c]
            m_UndoDataIndex := inc32 l.m_UndoDataIndex }) = (r, l1) :=
          Option.some.inj hrest
        rw [← (Prod.mk.inj h2).2]
    · simp only [Option.some.injEq, Prod.mk.injEq] at hrest
      rw [← hrest.2]


/-- One guarded write on a `W` by `H` grid: the shape stays, the cell written
holds the new tile, every other cell its old one, and the number of boxes
changes by what is written less what is overwritten. -/
theorem modify2_full {a a1 : List (List Char)} {W H x y : Nat} {t : Char} (f : Char → Char)
    (hg : IsGrid a W H) (ht : at2 a x y = some t) (h : modify2 a x y f = some a1) :
    IsGrid a1 W H ∧
    (∀ i j, at2 a1 i j = if i = x ∧ j = y then some (f t) else at2 a i j) ∧
    boxCount a1 + (if isBox t then 1 else 0) = boxCount a + (if isBox (f t) then 1 else 0) := by
  obtain ⟨a2, h2, hg2, hat2⟩ := modify2_spec hg ht f
  rw [h] at h2
  injection h2 with h2
  subst h2
  exact ⟨hg2, hat2, modify2_count f ht h⟩

/-- The number of boxes after the second half of `movePlayer`, on a grid that has
the target cell, the player's cell and, for a push, the cell beyond. -/
theorem movePlayerCommit_count (l l1 : Level) (c : Char) (b r : Bool) (tx ty nx ny : Nat)
    {W H : Nat} {t p : Char} (n : Char)
    (hg : IsGrid l.m_LevelArray W H)
    (hT : at2 l.m_LevelArray tx ty = some t)
    (hP : at2 l.m_LevelArray l.m_PlayerX l.m_PlayerY = some p)
    (hTP : ¬ (tx = l.m_PlayerX ∧ ty = l.m_PlayerY))
    (hB : b = true → at2 l.m_LevelArray nx ny = some n ∧ ¬ (nx = tx ∧ ny = ty) ∧
      ¬ (nx = l.m_PlayerX ∧ ny = l.m_PlayerY))
    (h : movePlayerCommit l c b tx ty nx ny = some (r, l1)) :
    boxCount l1.m_LevelArray + (if isBox t then 1 else 0) + (if isBox p then 1 else 0) +
        (if b = true ∧ isBox n = true then 1 else 0) =
      boxCount l.m_LevelArray + (if b = true then 1 else 0) := by
  have hgT : ∀ u : Char, isBox (if u = ' ' then '@' else '+') = false := by
    intro u; split <;> decide
  have hgP : ∀ u : Char, isBox (if u = '@' then ' ' else '+') = false := by
    intro u; split <;> decide
  have hgC : ∀ u : Char, isBox (if u = '$' then ' ' else '.') = false := by
    intro u; split <;> decide
  have hgB : ∀ u : Char, isBox (if u = '.' then '*' else '$') = true := by
    intro u; split <;> decide
  obtain ⟨a1, a2, hA, hB2, hC⟩ := movePlayerCommit_grid l l1 c b r tx ty nx ny h
  cases b with
  | false =>
    simp only [Bool.false_eq_true, if_false, Option.some.injEq] at hA
    subst hA
    obtain ⟨hg2, hat2, hc2⟩ := modify2_full _ hg hT hB2
    have hP2 : at2 a2 l.m_PlayerX l.m_PlayerY = some p := by
      rw [hat2, if_neg (fun hc => hTP ⟨hc.1.symm, hc.2.symm⟩), hP]
    obtain ⟨_, _, hc3⟩ := modify2_full _ hg2 hP2 hC
    simp only [hgT, hgP, Bool.false_eq_true, if_false, false_and] at hc2 hc3 ⊢
    omega
  | true =>
    obtain ⟨hB1, hBT, hBP⟩ := hB rfl
    simp only [if_true, Option.bind_eq_some] at hA
    obtain ⟨a0, hA0, hA1⟩ := hA
    obtain ⟨hg0, hat0, hc0⟩ := modify2_full _ hg hT hA0
    have hB0 : at2 a0 nx ny = some n := by rw [hat0, if_neg hBT, hB1]
    obtain ⟨hg1, hat1, hc1⟩ := modify2_full _ hg0 hB0 hA1
    have hT1 : at2 a1 tx ty = some (if t = '$' then ' ' else '.') := by
      rw [hat1, if_neg (fun hc => hBT ⟨hc.1.symm, hc.2.symm⟩), hat0]
      simp
    obtain ⟨hg2, hat2, hc2⟩ := modify2_full _ hg1 hT1 hB2
    have hP2 : at2 a2 l.m_PlayerX l.m_PlayerY = some p := by
      rw [hat2, if_neg (fun hc => hTP ⟨hc.1.symm, hc.2.symm⟩), hat1,
        if_neg (fun hc => hBP ⟨hc.1.symm, hc.2.symm⟩), hat0,
        if_neg (fun hc => hTP ⟨hc.1.symm, hc.2.symm⟩), hP]
    obtain ⟨_, _, hc3⟩ := modify2_full _ hg2 hP2 hC
    simp only [hgT, hgP, hgC, hgB, Bool.false_eq_true, if_false, if_true, true_and]
      at hc0 hc1 hc2 hc3 ⊢
    omega

/-! ### What a move does, case by case -/

/-- A move into a wall, or into a box with a wall or a box beyond it, returns
the level as it is. -/
theorem move_blocked (l : Level) (d : Direction) (t : Char) (hl : GridOK l)
    (hv : l.m_IsLevelValid = true) (ht : tileAhead l d 1 = some t)
    (hb : t = '#' ∨ ((t = '$' ∨ t = '*') ∧
      ∃ n, tileAhead l d 2 = some n ∧ (n = '#' ∨ n = '$' ∨ n = '*'))) :
    move d l = .done l := by
  obtain ⟨_, hat, _, _⟩ := target_coords l d hl ht
  rw [move_eq d l hv, movePlayer_letter]
  rcases hb with hw | ⟨hbox, n, hn, hbey⟩
  · simp [hat, hw]
  · obtain ⟨_, hat2⟩ := beyond_coords l d hl ht hn
    have hne : t ≠ '#' := by rcases hbox with rfl | rfl <;> decide
    simp [hat, hat2, hne, hbox, hbey]

/-- A move that is not blocked, on a well-formed, validated level whose log lets
the truncation loop end and whose cached player position is a cell of the grid;
`b` tells whether it is a push. The move function returns normally; the level
stays validated and its log stays such that the truncation loop ends; the grid
keeps its shape; the cached coordinates become those of the target; the cell the
player leaves, the target and, for a push, the cell beyond get their new tiles
and every other cell keeps its tile; and the boxes are counted. -/
theorem move_committed (l : Level) (d : Direction) (b : Bool) (t p n : Char) (hl : GridOK l)
    (hv : l.m_IsLevelValid = true) (hlog : LogOK l)
    (hp : at2 l.m_LevelArray l.m_PlayerX l.m_PlayerY = some p)
    (ht : tileAhead l d 1 = some t) (hwall : t ≠ '#')
    (hb : b = true ↔ (t = '$' ∨ t = '*'))
    (hn : b = true → tileAhead l d 2 = some n ∧ n ≠ '#' ∧ n ≠ '$' ∧ n ≠ '*') :
    ∃ l1, move d l = .done l1 ∧
      l1.m_IsLevelValid = true ∧ LogOK l1 ∧
      IsGrid l1.m_LevelArray l.m_LevelArray.length (l.m_LevelArray.headD []).length ∧
      l1.m_PlayerX = d.newX l ∧ l1.m_PlayerY = d.newY l ∧
      d.cell l.m_PlayerX l.m_PlayerY 1 = some (d.newX l, d.newY l) ∧
      (b = true → d.cell l.m_PlayerX l.m_PlayerY 2 =
        some (step32 (d.newX l) l.m_PlayerX, step32 (d.newY l) l.m_PlayerY)) ∧
      (∀ i j, at2 l1.m_LevelArray i j =
        if i = l.m_PlayerX ∧ j = l.m_PlayerY then some (if p = '@' then ' ' else '+')
        else if i = d.newX l ∧ j = d.newY l then
          some (if (if b then (if t = '$' then ' ' else '.') else t) = ' ' then '@' else '+')
        else if b = true ∧ i = step32 (d.newX l) l.m_PlayerX ∧
            j = step32 (d.newY l) l.m_PlayerY then
          some (if n = '.' then '*' else '$')
        else at2 l.m_LevelArray i j) ∧
      boxCount l1.m_LevelArray + (if isBox p then 1 else 0) =
        boxCount l.m_LevelArray := by
  obtain ⟨hc1, hat, _, _⟩ := target_coords l d hl ht
  have hTP : ¬ (d.newX l = l.m_PlayerX ∧ d.newY l = l.m_PlayerY) := by
    cases d <;> simp only [Direction.cell] at hc1
    · split at hc1 <;> simp only [Option.some.injEq, Prod.mk.injEq, reduceCtorEq] at hc1
      omega
    · simp only [Option.some.injEq, Prod.mk.injEq] at hc1
      omega
    · split at hc1 <;> simp only [Option.some.injEq, Prod.mk.injEq, reduceCtorEq] at hc1
      omega
    · simp only [Option.some.injEq, Prod.mk.injEq] at hc1
      omega
  have hB : b = true → at2 l.m_LevelArray (step32 (d.newX l) l.m_PlayerX)
        (step32 (d.newY l) l.m_PlayerY) = some n ∧
      ¬ (step32 (d.newX l) l.m_PlayerX = d.newX l ∧
        step32 (d.newY l) l.m_PlayerY = d.newY l) ∧
      ¬ (step32 (d.newX l) l.m_PlayerX = l.m_PlayerX ∧
        step32 (d.newY l) l.m_PlayerY = l.m_PlayerY) := by
    intro hbt
    obtain ⟨hc2, hat2⟩ := beyond_coords l d hl ht (hn hbt).1
    obtain ⟨_, hBT, hBP⟩ := cells_distinct d _ _ _ _ _ _ hc1 hc2
    exact ⟨hat2, hBT, hBP⟩
  have hc2 : b = true → d.cell l.m_PlayerX l.m_PlayerY 2 =
      some (step32 (d.newX l) l.m_PlayerX, step32 (d.newY l) l.m_PlayerY) :=
    fun hbt => (beyond_coords l d hl ht (hn hbt).1).1
  obtain ⟨a3, hcommit, hg3, hcells⟩ := movePlayerCommit_spec l d.letter b (d.newX l)
    (d.newY l) (step32 (d.newX l) l.m_PlayerX) (step32 (d.newY l) l.m_PlayerY) n
    hl.isGrid hlog hat hp hTP hB
  obtain ⟨lc, hlc, hlx, hly, hla, hlu, hli, hlv⟩ : ∃ lc : Level,
      movePlayerCommit l d.letter b (d.newX l) (d.newY l)
        (step32 (d.newX l) l.m_PlayerX) (step32 (d.newY l) l.m_PlayerY) = some (true, lc) ∧
      lc.m_PlayerX = l.m_PlayerX ∧ lc.m_PlayerY = l.m_PlayerY ∧ lc.m_LevelArray = a3 ∧
      lc.m_UndoData = (if l.m_UndoDataIndex = UINT32_MINUS_ONE then l.m_UndoData
        else l.m_UndoData.take l.m_UndoDataIndex) ++ [if b then charSub32 d.letter
          else d.letter] ∧
      lc.m_UndoDataIndex = inc32 l.m_UndoDataIndex ∧
      lc.m_IsLevelValid = l.m_IsLevelValid :=
    ⟨_, hcommit, rfl, rfl, rfl, rfl, rfl, rfl⟩
  have hcount := movePlayerCommit_count l lc d.letter b true (d.newX l)
    (d.newY l) (step32 (d.newX l) l.m_PlayerX) (step32 (d.newY l) l.m_PlayerY) n
    hl.isGrid hat hp hTP hB hlc
  have hfr := newX_frame d l lc hlx hly
  have hmove : move d l = .done { lc with m_PlayerX := d.newX lc, m_PlayerY := d.newY lc } := by
    rw [move_eq d l hv, movePlayer_letter]
    cases b with
    | false =>
      have hnb : ¬ (t = '$' ∨ t = '*') := fun hc => by
        have := hb.mpr hc
        cases this
      simp only [hat, hwall, hnb, if_false, hlc]
    | true =>
      have hbox := hb.mp rfl
      obtain ⟨hat2, _, _⟩ := hB rfl
      obtain ⟨_, h1, h2, h3⟩ := hn rfl
      have hnn : ¬ (n = '#' ∨ n = '$' ∨ n = '*') := fun hc =>
        hc.elim h1 (fun hc => hc.elim h2 h3)
      simp only [hat, hat2, hwall, hbox, hnn, if_true, if_false, hlc]
  refine ⟨_, hmove, ?_, ?_, ?_, hfr.1, hfr.2, hc1, hc2, ?_, ?_⟩
  · show lc.m_IsLevelValid = true
    rw [hlv, hv]
  · show lc.m_UndoDataIndex = UINT32_MINUS_ONE ∨ lc.m_UndoDataIndex ≤ lc.m_UndoData.length
    rw [hlu, hli]
    right
    by_cases e : l.m_UndoDataIndex = UINT32_MINUS_ONE
    · simp only [e, if_true, List.length_append, List.length_singleton]
      unfold inc32 UINT32_MINUS_ONE UINT32_MOD
      omega
    · have hle : l.m_UndoDataIndex ≤ l.m_UndoData.length := hlog.resolve_left e
      simp only [e, if_false, List.length_append, List.length_singleton, List.length_take]
      have := Nat.mod_le (l.m_UndoDataIndex + 1) UINT32_MOD
      unfold inc32
      omega
  · show IsGrid lc.m_LevelArray _ _
    rw [hla]
    exact hg3
  · intro i j
    show at2 lc.m_LevelArray i j = _
    rw [hla, hcells]
  · show boxCount lc.m_LevelArray + _ = _
    cases b with
    | false =>
      have hnb : isBox t = false := by
        have h1 : t ≠ '$' := fun hc => by have := hb.mpr (Or.inl hc); cases this
        have h2 : t ≠ '*' := fun hc => by have := hb.mpr (Or.inr hc); cases this
        simp [isBox, h1, h2]
      simp only [hnb, Bool.false_eq_true, if_false, false_and] at hcount
      omega
    | true =>
      have hbt : isBox t = true := by
        rcases hb.mp rfl with rfl | rfl <;> decide
      obtain ⟨_, h1, h2, h3⟩ := hn rfl
      have hnb : isBox n = false := by simp [isBox, h2, h3]
      simp only [hbt, hnb, Bool.false_eq_true, if_true, if_false, and_false] at hcount
      omega

/-! ### The boxes are kept, where the truncation loop ends -/

/-- The boxes on a level whose log lets the truncation loop end (the cursor is
the sentinel or at most the length of the log, which a `redo` does not keep). On
a well-formed, validated level of that kind whose cached player position holds a
player tile (`@` or `+`), whose target
cell is inside the grid and, when the target holds a box, whose cell beyond is
inside the grid too, the move function returns normally, blocked or not, and the
number of box-bearing cells is what it was. When the move is a push (the target
holds a box and the cell beyond holds none of `#`, `$`, `*`), the target is
box-bearing before and not after, the cell beyond is box-bearing after and not
before, and every other cell is box-bearing after exactly if it was before. -/
theorem move_keeps_boxes (l : Level) (d : Direction) (t p : Char) (hl : GridOK l)
    (hv : l.m_IsLevelValid = true) (hlog : LogOK l)
    (hp : at2 l.m_LevelArray l.m_PlayerX l.m_PlayerY = some p) (hpt : p = '@' ∨ p = '+')
    (ht : tileAhead l d 1 = some t)
    (hn : (t = '$' ∨ t = '*') → ∃ n, tileAhead l d 2 = some n) :
    ∃ l1, move d l = .done l1 ∧ boxCount l1.m_LevelArray = boxCount l.m_LevelArray ∧
      ∀ n, (t = '$' ∨ t = '*') → tileAhead l d 2 = some n → n ≠ '#' → n ≠ '$' → n ≠ '*' →
        ∃ tx ty nx ny,
          d.cell l.m_PlayerX l.m_PlayerY 1 = some (tx, ty) ∧
          d.cell l.m_PlayerX l.m_PlayerY 2 = some (nx, ny) ∧
          isBoxAt l.m_LevelArray tx ty = true ∧ isBoxAt l1.m_LevelArray tx ty = false ∧
          isBoxAt l.m_LevelArray nx ny = false ∧ isBoxAt l1.m_LevelArray nx ny = true ∧
          ∀ i j, ¬ (i = tx ∧ j = ty) → ¬ (i = nx ∧ j = ny) →
            isBoxAt l1.m_LevelArray i j = isBoxAt l.m_LevelArray i j := by
  have hpb : isBox p = false := by rcases hpt with rfl | rfl <;> decide
  by_cases hwall : t = '#'
  · refine ⟨l, move_blocked l d t hl hv ht (Or.inl hwall), rfl, ?_⟩
    intro n hbox
    subst hwall
    rcases hbox with hc | hc <;> exact absurd hc (by decide)
  · by_cases hbox : t = '$' ∨ t = '*'
    · obtain ⟨n, hn1⟩ := hn hbox
      by_cases hfree : n = '#' ∨ n = '$' ∨ n = '*'
      · refine ⟨l, move_blocked l d t hl hv ht (Or.inr ⟨hbox, n, hn1, hfree⟩), rfl, ?_⟩
        intro n1 _ hn2 h1 h2 h3
        rw [hn1] at hn2
        injection hn2 with hn2
        subst hn2
        exact (hfree.elim h1 (fun hc => hc.elim h2 h3)).elim
      · have hf1 : n ≠ '#' := fun hc => hfree (Or.inl hc)
        have hf2 : n ≠ '$' := fun hc => hfree (Or.inr (Or.inl hc))
        have hf3 : n ≠ '*' := fun hc => hfree (Or.inr (Or.inr hc))
        obtain ⟨l1, hmove, _, _, _, _, _, hc1, hc2, hcells, hcount⟩ :=
          move_committed l d true t p n hl hv hlog hp ht hwall
            ⟨fun _ => hbox, fun _ => rfl⟩ (fun _ => ⟨hn1, hf1, hf2, hf3⟩)
        obtain ⟨_, hat, _, _⟩ := target_coords l d hl ht
        obtain ⟨_, hat2⟩ := beyond_coords l d hl ht hn1
        obtain ⟨hTP, hBT, hBP⟩ := cells_distinct d _ _ _ _ _ _ hc1 (hc2 rfl)
        refine ⟨l1, hmove, by rw [hpb] at hcount; simpa using hcount, ?_⟩
        intro n1 _ hn2 _ _ _
        refine ⟨_, _, _, _, hc1, hc2 rfl, ?_, ?_, ?_, ?_, ?_⟩
        · simp only [isBoxAt, hat]
          rcases hbox with rfl | rfl <;> decide
        · simp only [isBoxAt, hcells, hTP, if_false, and_self, if_true]
          split <;> decide
        · simp only [isBoxAt, hat2, isBox, hf2, hf3, decide_False, Bool.or_self]
        · simp only [isBoxAt, hcells, hBP, hBT, if_false, and_self, if_true]
          split <;> decide
        · intro i j hnT hnB
          simp only [isBoxAt, hcells, hnT, if_false]
          by_cases hP : i = l.m_PlayerX ∧ j = l.m_PlayerY
          · rw [if_pos hP, hP.1, hP.2, hp]
            simp only [hpb]
            split <;> decide
          · rw [if_neg hP, if_neg (fun hc => hnB hc.2)]
    · obtain ⟨l1, hmove, _, _, _, _, _, _, _, _, hcount⟩ :=
        move_committed l d false t p ' ' hl hv hlog hp ht hwall
          ⟨fun hc => (by cases hc), fun hc => (hbox hc).elim⟩ (fun hc => (by cases hc))
      refine ⟨l1, hmove, by rw [hpb] at hcount; simpa using hcount, ?_⟩
      intro n hc
      exact (hbox hc).elim

/-- The boxes of the push to the right on the validated grid `@$.`. -/
theorem move_keeps_boxes_witness :
    boxCount [['@'], ['$'], ['.']] = 1 ∧
    ∃ l1, move .right (Level.play [['@'], ['$'], ['.']] 0 0 [] UINT32_MINUS_ONE) = .done l1 ∧
      boxCount l1.m_LevelArray =
        boxCount (Level.play [['@'], ['$'], ['.']] 0 0 [] UINT32_MINUS_ONE).m_LevelArray ∧
      ∀ n, ('$' = '$' ∨ '$' = '*') →
        tileAhead (Level.play [['@'], ['$'], ['.']] 0 0 [] UINT32_MINUS_ONE) .right 2 = some n →
        n ≠ '#' → n ≠ '$' → n ≠ '*' →
        ∃ tx ty nx ny,
          Direction.right.cell 0 0 1 = some (tx, ty) ∧
          Direction.right.cell 0 0 2 = some (nx, ny) ∧
          isBoxAt [['@'], ['$'], ['.']] tx ty = true ∧
          isBoxAt l1.m_LevelArray tx ty = false ∧
          isBoxAt [['@'], ['$'], ['.']] nx ny = false ∧
          isBoxAt l1.m_LevelArray nx ny = true ∧
          ∀ i j, ¬ (i = tx ∧ j = ty) → ¬ (i = nx ∧ j = ny) →
            isBoxAt l1.m_LevelArray i j = isBoxAt [['@'], ['$'], ['.']] i j :=
  ⟨by decide,
   move_keeps_boxes (Level.play [['@'], ['$'], ['.']] 0 0 [] UINT32_MINUS_ONE) .right '$' '@'
    (by decide) rfl (by decide) (by decide) (by decide) (by decide)
    (fun _ => ⟨'.', by decide⟩)⟩

/-! ### Moves on a walled level (C22) -/

/-- In the state of play on a walled level the player is off the border. -/
theorem PlayInv.interior {l : Level} (h : PlayInv l) :
    1 ≤ l.m_PlayerX ∧ l.m_PlayerX + 2 ≤ l.m_LevelArray.length ∧
    1 ≤ l.m_PlayerY ∧ l.m_PlayerY + 2 ≤ (l.m_LevelArray.headD []).length := by
  obtain ⟨hl, _, _, hb, hp⟩ := h
  have hr : l.m_PlayerX < l.m_LevelArray.length ∧
      l.m_PlayerY < (l.m_LevelArray.headD []).length := by
    rcases hp with hp | hp <;> exact hl.in_range hp
  have hnb : ¬ (l.m_PlayerX = 0 ∨ l.m_PlayerX + 1 = l.m_LevelArray.length ∨
      l.m_PlayerY = 0 ∨ l.m_PlayerY + 1 = (l.m_LevelArray.headD []).length) := by
    intro hc
    have hw := hb _ hr.1 _ hr.2 hc
    rcases hp with hp | hp <;> rw [hw] at hp <;> exact absurd hp (by decide)
  omega

/-- A cell of a walled grid that does not hold a wall is off the border. -/
theorem wallBorder_interior {l : Level} (hl : GridOK l) (hb : WallBorder l.m_LevelArray)
    {i j : Nat} {t : Char} (ht : at2 l.m_LevelArray i j = some t) (hne : t ≠ '#') :
    1 ≤ i ∧ i + 2 ≤ l.m_LevelArray.length ∧
    1 ≤ j ∧ j + 2 ≤ (l.m_LevelArray.headD []).length := by
  have hr := hl.in_range ht
  have hnb : ¬ (i = 0 ∨ i + 1 = l.m_LevelArray.length ∨
      j = 0 ∨ j + 1 = (l.m_LevelArray.headD []).length) := by
    intro hc
    have hw := hb _ hr.1 _ hr.2 hc
    rw [hw] at ht
    injection ht with ht
    exact hne ht.symm
  omega

/-- In the state of play on a walled level the grid has the cell next to the
player in every direction, and the cell beyond it when that cell holds no
wall. -/
theorem PlayInv.ahead {l : Level} (h : PlayInv l) (d : Direction) :
    ∃ t, tileAhead l d 1 = some t ∧
      (t ≠ '#' → ∃ n, tileAhead l d 2 = some n) := by
  have hint := h.interior
  obtain ⟨hl, _, _, hb, _⟩ := h
  have hg := hl.isGrid
  cases d with
  | up =>
    have h1 : tileAhead l .up 1 = some (cellD l.m_LevelArray l.m_PlayerX (l.m_PlayerY - 1)) := by
      simp only [tileAhead, Direction.cell, hint.2.2.1, if_true]
      exact hg.at2_some (by omega) (by omega)
    refine ⟨_, h1, fun hne => ?_⟩
    have hti := wallBorder_interior hl hb
      (hg.at2_some (i := l.m_PlayerX) (j := l.m_PlayerY - 1) (by omega) (by omega)) hne
    have h2 : 2 ≤ l.m_PlayerY := by omega
    refine ⟨cellD l.m_LevelArray l.m_PlayerX (l.m_PlayerY - 2), ?_⟩
    simp only [tileAhead, Direction.cell, h2, if_true]
    exact hg.at2_some (by omega) (by omega)
  | down =>
    have h1 : tileAhead l .down 1 =
        some (cellD l.m_LevelArray l.m_PlayerX (l.m_PlayerY + 1)) := by
      simp only [tileAhead, Direction.cell]
      exact hg.at2_some (by omega) (by omega)
    refine ⟨_, h1, fun hne => ?_⟩
    have hti := wallBorder_interior hl hb
      (hg.at2_some (i := l.m_PlayerX) (j := l.m_PlayerY + 1) (by omega) (by omega)) hne
    refine ⟨cellD l.m_LevelArray l.m_PlayerX (l.m_PlayerY + 2), ?_⟩
    simp only [tileAhead, Direction.cell]
    exact hg.at2_some (by omega) (by omega)
  | left =>
    have h1 : tileAhead l .left 1 =
        some (cellD l.m_LevelArray (l.m_PlayerX - 1) l.m_PlayerY) := by
      simp only [tileAhead, Direction.cell, hint.1, if_true]
      exact hg.at2_some (by omega) (by omega)
    refine ⟨_, h1, fun hne => ?_⟩
    have hti := wallBorder_interior hl hb
      (hg.at2_some (i := l.m_PlayerX - 1) (j := l.m_PlayerY) (by omega) (by omega)) hne
    have h2 : 2 ≤ l.m_PlayerX := by omega
    refine ⟨cellD l.m_LevelArray (l.m_PlayerX - 2) l.m_PlayerY, ?_⟩
    simp only [tileAhead, Direction.cell, h2, if_true]
    exact hg.at2_some (by omega) (by omega)
  | right =>
    have h1 : tileAhead l .right 1 =
        some (cellD l.m_LevelArray (l.m_PlayerX + 1) l.m_PlayerY) := by
      simp only [tileAhead, Direction.cell]
      exact hg.at2_some (by omega) (by omega)
    refine ⟨_, h1, fun hne => ?_⟩
    have hti := wallBorder_interior hl hb
      (hg.at2_some (i := l.m_PlayerX + 1) (j := l.m_PlayerY) (by omega) (by omega)) hne
    refine ⟨cellD l.m_LevelArray (l.m_PlayerX + 2) l.m_PlayerY, ?_⟩
    simp only [tileAhead, Direction.cell]
    exact hg.at2_some (by omega) (by omega)

theorem cell_one_ne (d : Direction) (x y tx ty : Nat) (h1 : d.cell x y 1 = some (tx, ty)) :
    ¬ (tx = x ∧ ty = y) := by
  cases d <;> simp only [Direction.cell] at h1
  · split at h1 <;> simp only [Option.some.injEq, Prod.mk.injEq, reduceCtorEq] at h1
    omega
  · simp only [Option.some.injEq, Prod.mk.injEq] at h1
    omega
  · split at h1 <;> simp only [Option.some.injEq, Prod.mk.injEq, reduceCtorEq] at h1
    omega
  · simp only [Option.some.injEq, Prod.mk.injEq] at h1
    omega

/-- A move that is not blocked keeps the state of play on a walled level, and
every wall. -/
theorem PlayInv.committed {l : Level} (h : PlayInv l) (d : Direction) (b : Bool)
    (t n : Char) (ht : tileAhead l d 1 = some t) (hwall : t ≠ '#')
    (hb : b = true ↔ (t = '$' ∨ t = '*'))
    (hn : b = true → tileAhead l d 2 = some n ∧ n ≠ '#' ∧ n ≠ '$' ∧ n ≠ '*') :
    ∃ l1, move d l = .done l1 ∧ PlayInv l1 ∧
      ∀ i j, at2 l.m_LevelArray i j = some '#' → at2 l1.m_LevelArray i j = some '#' := by
  obtain ⟨hl, hv, hlog, hbd, hp⟩ := h
  obtain ⟨p, hp1, hpt⟩ : ∃ p, at2 l.m_LevelArray l.m_PlayerX l.m_PlayerY = some p ∧
      (p = '@' ∨ p = '+') := by
    rcases hp with hp | hp
    · exact ⟨_, hp, Or.inl rfl⟩
    · exact ⟨_, hp, Or.inr rfl⟩
  obtain ⟨l1, hmove, hv1, hlog1, hg1, hx, hy, hc1, hc2, hcells, _⟩ :=
    move_committed l d b t p n hl hv hlog hp1 ht hwall hb hn
  obtain ⟨_, hat, _, _⟩ := target_coords l d hl ht
  have hTP := cell_one_ne d _ _ _ _ hc1
  have hwalls : ∀ i j, at2 l.m_LevelArray i j = some '#' →
      at2 l1.m_LevelArray i j = some '#' := by
    intro i j hw
    rw [hcells]
    have h1 : ¬ (i = l.m_PlayerX ∧ j = l.m_PlayerY) := by
      rintro ⟨rfl, rfl⟩
      rw [hw] at hp1
      injection hp1 with hp1
      subst hp1
      rcases hpt with hc | hc <;> exact absurd hc (by decide)
    have h2 : ¬ (i = d.newX l ∧ j = d.newY l) := by
      rintro ⟨rfl, rfl⟩
      rw [hw] at hat
      injection hat with hat
      exact hwall hat.symm
    have h3 : ¬ (b = true ∧ i = step32 (d.newX l) l.m_PlayerX ∧
        j = step32 (d.newY l) l.m_PlayerY) := by
      rintro ⟨hbt, rfl, rfl⟩
      obtain ⟨hn1, hn2, _⟩ := hn hbt
      obtain ⟨_, hat2⟩ := beyond_coords l d hl ht hn1
      rw [hw] at hat2
      injection hat2 with hat2
      exact hn2 hat2.symm
    rw [if_neg h1, if_neg h2, if_neg h3, hw]
  have hTile : ∀ c : Char, (if c = ' ' then '@' else '+') = '@' ∨
      (if c = ' ' then '@' else '+') = '+' := by
    intro c
    by_cases hc : c = ' '
    · exact Or.inl (if_pos hc)
    · exact Or.inr (if_neg hc)
  have hvalid : ∀ i j u, at2 l1.m_LevelArray i j = some u → u ∈ validTiles := by
    intro i j u hu
    rw [hcells] at hu
    split at hu
    · injection hu with hu
      rw [← hu]
      split <;> decide
    · split at hu
      · injection hu with hu
        rw [← hu]
        rcases hTile (if b then (if t = '$' then ' ' else '.') else t) with e | e <;>
          rw [e] <;> decide
      · split at hu
        · injection hu with hu
          rw [← hu]
          split <;> decide
        · exact hl.tile_valid hu
  have hl1 : GridOK l1 := gridOK_of_isGrid hg1 hl.1 hl.2.1 hl.2.2.1 hvalid
  have hH1 := hg1.head_length hl.1
  refine ⟨l1, hmove, ⟨hl1, hv1, hlog1, ?_, ?_⟩, hwalls⟩
  · intro i hi j hj hc
    rw [hg1.1] at hi hc
    rw [hH1] at hj hc
    exact hwalls i j (hbd i hi j hj hc)
  · rw [hx, hy, hcells, if_neg hTP, if_pos ⟨rfl, rfl⟩]
    rcases hTile (if b then (if t = '$' then ' ' else '.') else t) with e | e
    · exact Or.inl (congrArg some e)
    · exact Or.inr (congrArg some e)

/-- Every move keeps the state of play on a walled level, and every wall. -/
theorem PlayInv.step {l : Level} (h : PlayInv l) (d : Direction) :
    ∃ l1, move d l = .done l1 ∧ PlayInv l1 ∧
      ∀ i j, at2 l.m_LevelArray i j = some '#' → at2 l1.m_LevelArray i j = some '#' := by
  obtain ⟨t, ht, hn⟩ := h.ahead d
  have hl := h.1
  have hv := h.2.1
  by_cases hwall : t = '#'
  · exact ⟨l, move_blocked l d t hl hv ht (Or.inl hwall), h, fun _ _ hw => hw⟩
  · obtain ⟨n, hn1⟩ := hn hwall
    by_cases hbox : t = '$' ∨ t = '*'
    · by_cases hfree : n = '#' ∨ n = '$' ∨ n = '*'
      · exact ⟨l, move_blocked l d t hl hv ht (Or.inr ⟨hbox, n, hn1, hfree⟩), h,
          fun _ _ hw => hw⟩
      · exact h.committed d true t n ht hwall ⟨fun _ => hbox, fun _ => rfl⟩
          (fun _ => ⟨hn1, fun hc => hfree (Or.inl hc), fun hc => hfree (Or.inr (Or.inl hc)),
            fun hc => hfree (Or.inr (Or.inr hc))⟩)
    · exact h.committed d false t n ht hwall
        ⟨fun hc => (by cases hc), fun hc => (hbox hc).elim⟩ (fun hc => (by cases hc))

/-- Every sequence of moves returns normally on a walled level in the state of
play, keeps that state and keeps every wall. -/
theorem PlayInv.run (ds : List Direction) :
    ∀ l : Level, PlayInv l →
    ∃ l2, runMoves l ds = .done l2 ∧ PlayInv l2 ∧
      ∀ i j, at2 l.m_LevelArray i j = some '#' → at2 l2.m_LevelArray i j = some '#' := by
  induction ds with
  | nil => intro l h; exact ⟨l, rfl, h, fun _ _ hw => hw⟩
  | cons d ds ih =>
    intro l h
    obtain ⟨l1, hmove, h1, hw1⟩ := h.step d
    obtain ⟨l2, hrun, h2, hw2⟩ := ih l1 h1
    refine ⟨l2, ?_, h2, fun i j hw => hw2 i j (hw1 i j hw)⟩
    simp only [runMoves, hmove, hrun]

/-- On a well-formed, unvalidated level with `@` in one cell only `validateLevel`
returns true, with the coordinates of that cell cached. -/
theorem validateLevel_found (l : Level) (px py : Nat) (hl : GridOK l)
    (hu : l.m_IsLevelValid = false) (hp : OnePlayerAt l.m_LevelArray px py) :
    validateLevel l = some (true,
      { l with m_PlayerX := px, m_PlayerY := py, m_IsLevelValid := true }) := by
  obtain ⟨hp1, hp2⟩ := hp
  have hr := hl.in_range hp1
  have hne : l.m_LevelArray ≠ [] := by
    intro e; have := hl.1; rw [e] at this; simp at this
  have hpx : px % UINT32_MOD = px := Nat.mod_eq_of_lt (by have := hl.2.1; omega)
  have hpy : py % UINT32_MOD = py := Nat.mod_eq_of_lt (by have := hl.2.2.1; omega)
  have hscan := validateColumns_one (l.m_LevelArray.headD []).length px py
    (List.range l.m_LevelArray.length) l rfl hne (List.nodup_range _)
    (List.mem_range.mpr hr.1) hr.2 hp1
    (fun x hx y hy hn => by
      have hs := hl.isGrid.at2_some (List.mem_range.mp hx) hy
      refine ⟨_, hs, fun e => hn ?_⟩
      rw [e] at hs
      exact hp2 x (List.mem_range.mp hx) y hy hs)
  unfold validateLevel
  simp only [hu, Bool.false_eq_true, if_false, hscan, hpx, hpy]

/-- C22: on a well-formed, unvalidated level whose log lets the truncation loop
end (as the empty log of a new level does), whose border cells all hold walls and
which holds `@` in one cell only, `validateLevel` returns true and every sequence
of moves after it returns normally, so no read or write of the grid is out of
bounds; every cell that held a wall still holds it after the sequence; and in the
state after the sequence, whatever move comes next, the target index that
`movePlayer` computes with its unsigned arithmetic is a cell of the grid, and so
is the index beyond it whenever the target holds no wall (in particular whenever
it holds a box and the cell beyond is read). -/
theorem moves_stay_inside (l0 : Level) (px py : Nat) (ds : List Direction)
    (hl : GridOK l0) (hu : l0.m_IsLevelValid = false) (hlog : LogOK l0)
    (hborder : WallBorder l0.m_LevelArray) (hplayer : OnePlayerAt l0.m_LevelArray px py) :
    ∃ l1 l2, validateLevel l0 = some (true, l1) ∧ runMoves l1 ds = .done l2 ∧
      (∀ i j, at2 l0.m_LevelArray i j = some '#' → at2 l2.m_LevelArray i j = some '#') ∧
      ∀ d : Direction, ∃ t, at2 l2.m_LevelArray (d.newX l2) (d.newY l2) = some t ∧
        (t ≠ '#' → ∃ n, at2 l2.m_LevelArray (step32 (d.newX l2) l2.m_PlayerX)
          (step32 (d.newY l2) l2.m_PlayerY) = some n) := by
  have hval := validateLevel_found l0 px py hl hu hplayer
  have hinv : PlayInv { l0 with m_PlayerX := px, m_PlayerY := py, m_IsLevelValid := true } :=
    ⟨hl, rfl, hlog, hborder, Or.inl hplayer.1⟩
  obtain ⟨l2, hrun, hinv2, hwalls⟩ := PlayInv.run ds _ hinv
  refine ⟨_, l2, hval, hrun, hwalls, ?_⟩
  intro d
  obtain ⟨t, ht, hn⟩ := hinv2.ahead d
  obtain ⟨_, hat, _, _⟩ := target_coords l2 d hinv2.1 ht
  refine ⟨t, hat, fun hne => ?_⟩
  obtain ⟨n, hn1⟩ := hn hne
  exact ⟨n, (beyond_coords l2 d hinv2.1 ht hn1).2⟩

/-- C22, witness: the 4 by 3 level with the rows `####`, `#@ #`, `####` and the
moves right, right, up, left, left. -/
theorem moves_stay_inside_witness :
    GridOK { Level.new 0 0 with m_LevelArray :=
      [['#', '#', '#'], ['#', '@', '#'], ['#', ' ', '#'], ['#', '#', '#']] } ∧
    WallBorder [['#', '#', '#'], ['#', '@', '#'], ['#', ' ', '#'], ['#', '#', '#']] ∧
    OnePlayerAt [['#', '#', '#'], ['#', '@', '#'], ['#', ' ', '#'], ['#', '#', '#']] 1 1 ∧
    ∃ l1 l2,
      validateLevel { Level.new 0 0 with m_LevelArray :=
        [['#', '#', '#'], ['#', '@', '#'], ['#', ' ', '#'], ['#', '#', '#']] }
        = some (true, l1) ∧
      runMoves l1 [.right, .right, .up, .left, .left] = .done l2 ∧
      (∀ i j, at2 [['#', '#', '#'], ['#', '@', '#'], ['#', ' ', '#'], ['#', '#', '#']] i j
          = some '#' → at2 l2.m_LevelArray i j = some '#') ∧
      ∀ d : Direction, ∃ t, at2 l2.m_LevelArray (d.newX l2) (d.newY l2) = some t ∧
        (t ≠ '#' → ∃ n, at2 l2.m_LevelArray (step32 (d.newX l2) l2.m_PlayerX)
          (step32 (d.newY l2) l2.m_PlayerY) = some n) :=
  ⟨by decide, by decide, by decide,
   moves_stay_inside { Level.new 0 0 with m_LevelArray :=
      [['#', '#', '#'], ['#', '@', '#'], ['#', ' ', '#'], ['#', '#', '#']] } 1 1
    [.right, .right, .up, .left, .left] (by decide) rfl (by decide) (by decide) (by decide)⟩

/-- C21, the code after an undone move: on the validated grid `@ ` (built by
`insertTileLine` and `validateLevel`, one `@` and no `+`) the move to the right
and the `undo` after it both return normally; the `undo` draws the player back at
column 0 and leaves `m_PlayerX` at 1, so the cell at the cached coordinates holds
floor, not a player tile. -/
theorem undo_keeps_cached_coordinates :
    insertTileLine (Level.new 0 0) 0 "@ " =
      .done { Level.new 0 0 with m_LevelArray := [['@'], [' ']] } ∧
    validateLevel { Level.new 0 0 with m_LevelArray := [['@'], [' ']] } =
      some (true, Level.play [['@'], [' ']] 0 0 [] UINT32_MINUS_ONE) ∧
    moveRight (Level.play [['@'], [' ']] 0 0 [] UINT32_MINUS_ONE) =
      .done (Level.play [[' '], ['@']] 1 0 ['r'] 0) ∧
    undo (Level.play [[' '], ['@']] 1 0 ['r'] 0) =
      .done (Level.play [['@'], [' ']] 1 0 ['r'] UINT32_MINUS_ONE) ∧
    at2 (Level.play [['@'], [' ']] 1 0 ['r'] UINT32_MINUS_ONE).m_LevelArray
      (Level.play [['@'], [' ']] 1 0 ['r'] UINT32_MINUS_ONE).m_PlayerX
      (Level.play [['@'], [' ']] 1 0 ['r'] UINT32_MINUS_ONE).m_PlayerY = some ' ' := by
  decide

/-! ### Moves on a level whose cursor is past the end of the log (C12, C23) -/

/-- With the cursor past the end of the log the truncation loop of `movePlayer`
empties the log and then pops the empty vector. -/
theorem truncateLoop_none (index : Nat) :
    ∀ (fuel : Nat) (log : List Char), log.length < index →
    truncateLoop index fuel log = none := by
  intro fuel
  induction fuel with
  | zero =>
    intro log h
    unfold truncateLoop
    rw [if_pos (by omega)]
  | succ fuel ih =>
    intro log h
    unfold truncateLoop
    rw [if_pos (by omega)]
    exact ih _ (by rw [List.length_dropLast]; omega)

theorem option_bind_none {α β : Type} (o : Option α) :
    o.bind (fun _ => (none : Option β)) = none := by
  cases o <;> rfl

/-- The second half of `movePlayer` never returns on a level whose cursor is
neither the sentinel nor at most the length of the log. -/
theorem movePlayerCommit_log_broken (l : Level) (c : Char) (b : Bool) (tx ty nx ny : Nat)
    (h : ¬ LogOK l) : movePlayerCommit l c b tx ty nx ny = none := by
  have hi : l.m_UndoDataIndex ≠ UINT32_MINUS_ONE := fun e => h (Or.inl e)
  have hlen : l.m_UndoData.length < l.m_UndoDataIndex := by
    by_contra hc
    exact h (Or.inr (by omega))
  have ht := truncateLoop_none l.m_UndoDataIndex l.m_UndoData.length l.m_UndoData hlen
  unfold movePlayerCommit
  simp only [Option.bind_eq_bind, bind, hi, ne_eq, not_false_eq_true, if_true, ht,
    Option.none_bind, option_bind_none, ite_self]

/-- On a validated level whose cursor is past the end of the log, a move
function either returns the level as it is (a blocked move) or is undefined. -/
theorem move_log_broken (l : Level) (d : Direction) (hv : l.m_IsLevelValid = true)
    (h : ¬ LogOK l) : move d l = .undefined ∨ move d l = .done l := by
  rw [move_eq d l hv, movePlayer_letter]
  simp only [movePlayerCommit_log_broken l _ _ _ _ _ _ h]
  cases at2 l.m_LevelArray (d.newX l) (d.newY l) with
  | none => exact Or.inl rfl
  | some t =>
    by_cases hw : t = '#'
    · simp [hw]
    · by_cases hb : t = '$' ∨ t = '*'
      · cases hn2 : at2 l.m_LevelArray (step32 (d.newX l) l.m_PlayerX)
            (step32 (d.newY l) l.m_PlayerY) with
        | none => simp [hw, hb, hn2]
        | some n =>
          by_cases hn : n = '#' ∨ n = '$' ∨ n = '*'
          · simp [hw, hb, hn2, hn]
          · simp [hw, hb, hn2, hn]
      · simp [hw, hb]

/-- On a well-formed, validated level whose cursor is past the end of the log,
every move that is not blocked is undefined: a move onto a cell that holds no
wall and no box, and a push of a box into a cell that holds none of `#`, `$`,
`*`. -/
theorem move_undefined_of_log (l : Level) (d : Direction) (t : Char) (hl : GridOK l)
    (hv : l.m_IsLevelValid = true) (h : ¬ LogOK l)
    (ht : tileAhead l d 1 = some t) (hwall : t ≠ '#')
    (hn : (t = '$' ∨ t = '*') →
      ∃ n, tileAhead l d 2 = some n ∧ n ≠ '#' ∧ n ≠ '$' ∧ n ≠ '*') :
    move d l = .undefined := by
  obtain ⟨_, hat, _, _⟩ := target_coords l d hl ht
  rw [move_eq d l hv, movePlayer_letter]
  simp only [movePlayerCommit_log_broken l _ _ _ _ _ _ h, hat, hwall, if_false]
  by_cases hb : t = '$' ∨ t = '*'
  · obtain ⟨n, hn1, h1, h2, h3⟩ := hn hb
    obtain ⟨_, hat2⟩ := beyond_coords l d hl ht hn1
    simp only [hb, if_true, hat2, h1, h2, h3, or_self, if_false]
  · simp only [hb, if_false]

/-- Whatever the log and the cursor: on a well-formed, validated level whose
cached player position holds a player tile, whose target cell is inside the grid
and, when the target holds a box, whose cell beyond is inside the grid too,
every call of a move function that returns leaves the number of box-bearing
cells as it was. -/
theorem move_returns_keeps_boxes (l l1 : Level) (d : Direction) (t p : Char) (hl : GridOK l)
    (hv : l.m_IsLevelValid = true)
    (hp : at2 l.m_LevelArray l.m_PlayerX l.m_PlayerY = some p) (hpt : p = '@' ∨ p = '+')
    (ht : tileAhead l d 1 = some t)
    (hn : (t = '$' ∨ t = '*') → ∃ n, tileAhead l d 2 = some n)
    (hret : move d l = .done l1) :
    boxCount l1.m_LevelArray = boxCount l.m_LevelArray := by
  by_cases hlog : LogOK l
  · obtain ⟨l2, hmove, hcount, _⟩ := move_keeps_boxes l d t p hl hv hlog hp hpt ht hn
    rw [hmove] at hret
    injection hret with hret
    rw [← hret]
    exact hcount
  · rcases move_log_broken l d hv hlog with hu | hd
    · rw [hu] at hret
      cases hret
    · rw [hd] at hret
      injection hret with hret
      rw [← hret]

/-- C12, the code on a push after a `redo`: on the validated 5 by 3 grid with the
rows `@..  `, `  $  `, `     ` the calls `moveRight`, `undo`, `moveRight`, `redo`
all return (with a 32-bit and with a 64-bit `size_t`) and leave the log `r` with
the cursor 2; the cached player position (2, 0) holds `+`, the cell below it a
box and the cell beyond the box floor. The push down then empties the log in the
truncation loop of `movePlayer` and pops the empty vector: the call is
undefined, and no push is made. -/
theorem push_after_redo_undefined :
    moveRight (Level.play [['@', ' ', ' '], ['.', ' ', ' '], ['.', '$', ' '],
        [' ', ' ', ' '], [' ', ' ', ' ']] 0 0 [] UINT32_MINUS_ONE) =
      .done (Level.play [[' ', ' ', ' '], ['+', ' ', ' '], ['.', '$', ' '],
        [' ', ' ', ' '], [' ', ' ', ' ']] 1 0 ['r'] 0) ∧
    undo (Level.play [[' ', ' ', ' '], ['+', ' ', ' '], ['.', '$', ' '],
        [' ', ' ', ' '], [' ', ' ', ' ']] 1 0 ['r'] 0) =
      .done (Level.play [['@', ' ', ' '], ['+', ' ', ' '], ['.', '$', ' '],
        [' ', ' ', ' '], [' ', ' ', ' ']] 1 0 ['r'] UINT32_MINUS_ONE) ∧
    moveRight (Level.play [['@', ' ', ' '], ['+', ' ', ' '], ['.', '$', ' '],
        [' ', ' ', ' '], [' ', ' ', ' ']] 1 0 ['r'] UINT32_MINUS_ONE) =
      .done (Level.play [['@', ' ', ' '], ['+', ' ', ' '], ['+', '$', ' '],
        [' ', ' ', ' '], [' ', ' ', ' ']] 2 0 ['r', 'r'] 0) ∧
    redo (2 ^ 32) (Level.play [['@', ' ', ' '], ['+', ' ', ' '], ['+', '$', ' '],
        [' ', ' ', ' '], [' ', ' ', ' ']] 2 0 ['r', 'r'] 0) =
      .done (Level.play [['@', ' ', ' '], ['+', ' ', ' '], ['+', '$', ' '],
        ['@', ' ', ' '], [' ', ' ', ' ']] 2 0 ['r'] 2) ∧
    redo (2 ^ 64) (Level.play [['@', ' ', ' '], ['+', ' ', ' '], ['+', '$', ' '],
        [' ', ' ', ' '], [' ', ' ', ' ']] 2 0 ['r', 'r'] 0) =
      .done (Level.play [['@', ' ', ' '], ['+', ' ', ' '], ['+', '$', ' '],
        ['@', ' ', ' '], [' ', ' ', ' ']] 2 0 ['r'] 2) ∧
    GridOK (Level.play [['@', ' ', ' '], ['+', ' ', ' '], ['+', '$', ' '],
        ['@', ' ', ' '], [' ', ' ', ' ']] 2 0 ['r'] 2) ∧
    tileAhead (Level.play [['@', ' ', ' '], ['+', ' ', ' '], ['+', '$', ' '],
        ['@', ' ', ' '], [' ', ' ', ' ']] 2 0 ['r'] 2) .down 0 = some '+' ∧
    tileAhead (Level.play [['@', ' ', ' '], ['+', ' ', ' '], ['+', '$', ' '],
        ['@', ' ', ' '], [' ', ' ', ' ']] 2 0 ['r'] 2) .down 1 = some '$' ∧
    tileAhead (Level.play [['@', ' ', ' '], ['+', ' ', ' '], ['+', '$', ' '],
        ['@', ' ', ' '], [' ', ' ', ' ']] 2 0 ['r'] 2) .down 2 = some ' ' ∧
    moveDown (Level.play [['@', ' ', ' '], ['+', ' ', ' '], ['+', '$', ' '],
        ['@', ' ', ' '], [' ', ' ', ' ']] 2 0 ['r'] 2) = .undefined := by
  decide

/-- C23, the code on a move after a `redo`: on the validated 4 by 1 grid `@.. `
the calls `moveRight`, `undo`, `moveRight`, `redo` all return (with a 32-bit and
with a 64-bit `size_t`) and leave the grid `@++@`, the log `r` and the cursor 2;
the level is validated, the cached player position (2, 0) holds `+`, and the
target and the cell beyond it to the left are cells of the grid. The move to the
left then empties the log in the truncation loop of `movePlayer` and pops the
empty vector: the call is undefined, so it leaves no level whose boxes could be
counted. -/
theorem move_after_redo_undefined :
    moveRight (Level.play [['@'], ['.'], ['.'], [' ']] 0 0 [] UINT32_MINUS_ONE) =
      .done (Level.play [[' '], ['+'], ['.'], [' ']] 1 0 ['r'] 0) ∧
    undo (Level.play [[' '], ['+'], ['.'], [' ']] 1 0 ['r'] 0) =
      .done (Level.play [['@'], ['+'], ['.'], [' ']] 1 0 ['r'] UINT32_MINUS_ONE) ∧
    moveRight (Level.play [['@'], ['+'], ['.'], [' ']] 1 0 ['r'] UINT32_MINUS_ONE) =
      .done (Level.play [['@'], ['+'], ['+'], [' ']] 2 0 ['r', 'r'] 0) ∧
    redo (2 ^ 32) (Level.play [['@'], ['+'], ['+'], [' ']] 2 0 ['r', 'r'] 0) =
      .done (Level.play [['@'], ['+'], ['+'], ['@']] 2 0 ['r'] 2) ∧
    redo (2 ^ 64) (Level.play [['@'], ['+'], ['+'], [' ']] 2 0 ['r', 'r'] 0) =
      .done (Level.play [['@'], ['+'], ['+'], ['@']] 2 0 ['r'] 2) ∧
    GridOK (Level.play [['@'], ['+'], ['+'], ['@']] 2 0 ['r'] 2) ∧
    (Level.play [['@'], ['+'], ['+'], ['@']] 2 0 ['r'] 2).m_IsLevelValid = true ∧
    tileAhead (Level.play [['@'], ['+'], ['+'], ['@']] 2 0 ['r'] 2) .left 0 = some '+' ∧
    tileAhead (Level.play [['@'], ['+'], ['+'], ['@']] 2 0 ['r'] 2) .left 1 = some '+' ∧
    tileAhead (Level.play [['@'], ['+'], ['+'], ['@']] 2 0 ['r'] 2) .left 2 = some '@' ∧
    moveLeft (Level.play [['@'], ['+'], ['+'], ['@']] 2 0 ['r'] 2) = .undefined := by
  decide

end Chocobun
